import Mathlib

/-!
Verification of the persistence/backup core of the pak-kharcha expense
tracker (src/lib/csv-data-manager.ts and src/lib/backup-manager.ts),
shallowly embedded in Lean.  JavaScript strings are modelled as `List Char`,
`localStorage` as an association list from keys to stored values, and every
clock read (`Date.now()` / `new Date()`) is threaded as an explicit `Nat`
millisecond timestamp parameter.  JavaScript numbers that can be `NaN` are
modelled as `Option Int` (`none` = `NaN`); the `NaN` comparison semantics
(every `<`, `>`, `<=`, `===` involving `NaN` is false) are reproduced at each
use site.
-/

abbrev Str := List Char

/-- Shorthand to turn a Lean string literal into the `List Char` model. -/
def str (s : String) : Str := s.data

/-- The whitespace test used by JavaScript `String.prototype.trim`
(restricted to the ASCII whitespace characters that can appear in the
modelled data). -/
def jsIsSpace (c : Char) : Bool :=
  c = ' ' || c = '\t' || c = '\n' || c = '\r' || c = '\x0b' || c = '\x0c'

/-- JavaScript `String.prototype.trim`. -/
def jsTrim (s : Str) : Str :=
  ((s.dropWhile jsIsSpace).reverse.dropWhile jsIsSpace).reverse

/-- JavaScript `String.prototype.includes`: `pat` occurs as a contiguous
substring of `l`. -/
def jsIncludes (l pat : Str) : Bool :=
  (List.range (l.length + 1)).any (fun i => pat.isPrefixOf (l.drop i))

/-- JavaScript `String.prototype.endsWith`. -/
def jsEndsWith (l pat : Str) : Bool := pat.isSuffixOf l

/-- ASCII lower-casing of one character (JavaScript `toLowerCase`,
restricted to ASCII, which covers all modelled file names and headers). -/
def jsToLowerChar (c : Char) : Char :=
  if 65 ≤ c.toNat ∧ c.toNat ≤ 90 then Char.ofNat (c.toNat + 32) else c

/-- JavaScript `String.prototype.toLowerCase` (ASCII). -/
def jsToLower (s : Str) : Str := s.map jsToLowerChar

/-- JavaScript `String.prototype.split('\n')`. -/
def splitNl : Str → List Str
  | [] => [[]]
  | c :: rest =>
    if c = '\n' then [] :: splitNl rest
    else
      match splitNl rest with
      | l :: ls => (c :: l) :: ls
      | [] => [[c]]

/-- `Array.prototype.join('\n')`. -/
def joinNl : List Str → Str
  | [] => []
  | [l] => l
  | l :: rest => l ++ '\n' :: joinNl rest

/-- Decimal digit test. -/
def isDigitCh (c : Char) : Bool := 48 ≤ c.toNat ∧ c.toNat ≤ 57

/-- The decimal digit character for `n < 10`. -/
def digitCh (n : Nat) : Char := Char.ofNat (48 + n)

/-- Fuelled helper for decimal printing (structural recursion so that the
kernel can evaluate it; the fuel is always sufficient). -/
def natToCharsAux : Nat → Nat → Str
  | 0, _ => []
  | fuel + 1, n =>
    if n < 10 then [digitCh n]
    else natToCharsAux fuel (n / 10) ++ [digitCh (n % 10)]

/-- Big-endian decimal digits of a natural number
(JavaScript `Number.prototype.toString` for non-negative integers). -/
def natToChars (n : Nat) : Str := natToCharsAux (n + 1) n

/-- Numeric value of a list of decimal digit characters. -/
def digitsVal (s : Str) : Nat :=
  s.foldl (fun acc c => acc * 10 + (c.toNat - 48)) 0

/-- JavaScript number that may be `NaN`: `none` is `NaN`. -/
abbrev JSNum := Option Int

/-- `Number.prototype.toString` on the modelled numbers (integers and
`NaN`; fractional values are outside the modelled data). -/
def numToChars : JSNum → Str
  | none => str "NaN"
  | some v => if v < 0 then '-' :: natToChars v.natAbs else natToChars v.toNat

/-- JavaScript `parseFloat`, restricted to the shapes the modelled data can
produce: an optional minus sign followed by decimal digits; any string with
no leading digits parses to `NaN` (`none`). -/
def jsParseFloat (s : Str) : JSNum :=
  if s.head? = some '-' then
    let ds := s.tail.takeWhile isDigitCh
    if ds = [] then none else some (-(digitsVal ds : Int))
  else
    let ds := s.takeWhile isDigitCh
    if ds = [] then none else some ((digitsVal ds : Int))

/-- JavaScript `===` on numbers: any comparison involving `NaN` is false. -/
def jsNumEq : JSNum → JSNum → Bool
  | some a, some b => a = b
  | _, _ => false

/-- `NaN`-aware addition (`NaN` absorbs), used for `totalAmount`. -/
def jsAdd : JSNum → JSNum → JSNum
  | some a, some b => some (a + b)
  | _, _ => none

/-- Truncation to a 32-bit signed integer (the coercion applied by the
JavaScript bitwise operators `<<` and `&`). -/
def toInt32 (x : Int) : Int := (x + 2 ^ 31) % 2 ^ 32 - 2 ^ 31

/-- One step of the rolling hash `hash = ((hash << 5) - hash + c) & hash…`
from `calculateChecksum` (identical in both source classes). -/
def checksumStep (h : Int) (c : Char) : Int :=
  toInt32 (toInt32 (h * 32) - h + c.toNat)

/-- Hexadecimal digit character. -/
def hexCh (n : Nat) : Char :=
  if n < 10 then Char.ofNat (48 + n) else Char.ofNat (87 + n)

/-- Fuelled helper for hexadecimal printing. -/
def natToHexAux : Nat → Nat → Str
  | 0, _ => []
  | fuel + 1, n =>
    if n < 16 then [hexCh n]
    else natToHexAux fuel (n / 16) ++ [hexCh (n % 16)]

/-- Big-endian base-16 digits of a natural number. -/
def natToHex (n : Nat) : Str := natToHexAux (n + 1) n

/-- JavaScript `Number.prototype.toString(16)` on a (possibly negative)
integer. -/
def intToHex (v : Int) : Str :=
  if v < 0 then '-' :: natToHex v.natAbs else natToHex v.toNat

/-- `calculateChecksum` from the source (the same function appears in
`CSVDataManager` and `BackupManager`). -/
def calculateChecksum (s : Str) : Str :=
  intToHex (s.foldl checksumStep 0)

/-! ### Basic lemmas about the string and number helpers -/

theorem digitCh_toNat (n : Nat) (h : n < 10) : (digitCh n).toNat = 48 + n := by
  interval_cases n <;> decide

theorem isDigitCh_digitCh (n : Nat) (h : n < 10) : isDigitCh (digitCh n) := by
  interval_cases n <;> decide

theorem natToCharsAux_irrel : ∀ (f1 f2 n : Nat), n < f1 → n < f2 →
    natToCharsAux f1 n = natToCharsAux f2 n := by
  intro f1
  induction f1 with
  | zero => intro f2 n h1; omega
  | succ g1 ih =>
    intro f2 n h1 h2
    cases f2 with
    | zero => omega
    | succ g2 =>
      rw [natToCharsAux, natToCharsAux]
      split
      · rfl
      · rw [ih g2 (n / 10) (by omega) (by omega)]

theorem natToChars_step (n : Nat) :
    natToChars n = if n < 10 then [digitCh n]
      else natToChars (n / 10) ++ [digitCh (n % 10)] := by
  rw [natToChars, natToCharsAux]
  split
  · rfl
  · rw [natToChars, natToCharsAux_irrel n (n / 10 + 1) (n / 10) (by omega) (by omega)]

theorem natToChars_all_digits (n : Nat) : ∀ c ∈ natToChars n, isDigitCh c := by
  induction n using Nat.strong_induction_on with
  | _ n ih =>
    rw [natToChars_step]
    split
    · intro c hc
      simp only [List.mem_singleton] at hc
      subst hc
      exact isDigitCh_digitCh n (by omega)
    · intro c hc
      rcases List.mem_append.mp hc with h1 | h2
      · exact ih (n / 10) (Nat.div_lt_self (by omega) (by omega)) c h1
      · simp only [List.mem_singleton] at h2
        subst h2
        exact isDigitCh_digitCh (n % 10) (Nat.mod_lt _ (by omega))

theorem natToChars_ne_nil (n : Nat) : natToChars n ≠ [] := by
  rw [natToChars_step]
  split <;> simp

theorem digitsVal_append (a b : Str) :
    digitsVal (a ++ b) = b.foldl (fun acc c => acc * 10 + (c.toNat - 48)) (digitsVal a) := by
  simp [digitsVal, List.foldl_append]

theorem digitsVal_natToChars (n : Nat) : digitsVal (natToChars n) = n := by
  induction n using Nat.strong_induction_on with
  | _ n ih =>
    rw [natToChars_step]
    split
    · simp [digitsVal, digitCh_toNat n (by omega)]
    · rw [digitsVal_append, ih (n / 10) (Nat.div_lt_self (by omega) (by omega))]
      simp [digitCh_toNat (n % 10) (Nat.mod_lt _ (by omega))]
      omega

theorem takeWhile_eq_self_of_all {p : Char → Bool} (l : Str) (h : ∀ c ∈ l, p c) :
    l.takeWhile p = l := by
  induction l with
  | nil => rfl
  | cons c rest ih =>
    rw [List.takeWhile_cons]
    rw [h c (by simp)]
    simp [ih (fun x hx => h x (by simp [hx]))]

/-! ### Calendar dates

`new Date(string)` is modelled on the ISO `YYYY-MM-DD` subset that the
application produces (its date fields come from date inputs).  A parsed
date is represented by a millisecond timestamp on a monotone scale:
lexicographically larger ISO dates get strictly larger timestamps.
`new Date()` (the current instant) is threaded as an explicit `now : Nat`
parameter on the same scale. -/

def dayMs : Nat := 86400000

/-- Millisecond timestamp of a calendar date (monotone encoding). -/
def dateTs (y m d : Nat) : Nat := (y * 372 + (m - 1) * 31 + (d - 1)) * dayMs

/-- `new Date(s).getTime()` on the modelled ISO subset; `none` is an
Invalid Date (`NaN` timestamp). -/
def jsParseDate (s : Str) : Option Nat :=
  match s with
  | [y1, y2, y3, y4, s1, m1, m2, s2, d1, d2] =>
    if s1 = '-' ∧ s2 = '-' ∧ isDigitCh y1 ∧ isDigitCh y2 ∧ isDigitCh y3 ∧ isDigitCh y4 ∧
        isDigitCh m1 ∧ isDigitCh m2 ∧ isDigitCh d1 ∧ isDigitCh d2 then
      let m := digitsVal [m1, m2]
      let d := digitsVal [d1, d2]
      if 1 ≤ m ∧ m ≤ 12 ∧ 1 ≤ d ∧ d ≤ 31 then
        some (dateTs (digitsVal [y1, y2, y3, y4]) m d)
      else none
    else none
  | _ => none

/-! ### Record model (`Expense` from src/context/ExpenseContext.tsx) -/

structure Expense where
  id : Str
  amount : JSNum
  category : Str
  description : Str
  date : Str
deriving DecidableEq

/-- The thirteen allowed categories (`ExpenseCategory`). -/
def validCategories : List Str :=
  [str "Food & Groceries", str "Transportation", str "Utilities", str "Housing",
   str "Healthcare", str "Education", str "Entertainment", str "Shopping",
   str "Charity/Zakat", str "Mobile/Internet", str "Family Support",
   str "Debt Payment", str "Miscellaneous"]

/-- Model of `crypto.randomUUID()`: a fresh identifier derived from the row
number it is generated for (the source uses it only when a row has an empty
id field). -/
def genUUID (rowIndex : Nat) : Str := str "uuid-" ++ natToChars rowIndex

namespace CSVDataManager

/-- `CSVDataManager.validateExpense`.  Returns `(isValid, errors)`.
Note the faithful `NaN` behaviour: a `NaN` amount passes the amount check
because `NaN <= 0` and `NaN > 10000000` are both false in JavaScript. -/
def validateExpense (now : Nat) (e : Expense) : Bool × List Str :=
  let errs1 := if e.id = [] then [str "Invalid or missing ID"] else []
  let amountBad : Bool := match e.amount with
    | none => false
    | some v => v ≤ 0 || v > 10000000
  let errs2 := if amountBad then
    [str "Amount must be a positive number between 1 and 10,000,000"] else []
  let errs3 := if e.category = [] ∨ ¬ validCategories.contains e.category then
    [str "Invalid category"] else []
  let errs4 := if e.description = [] ∨ e.description.length < 2 then
    [str "Description must be at least 2 characters long"] else []
  let errs5 := if e.description ≠ [] ∧ e.description.length > 200 then
    [str "Description cannot exceed 200 characters"] else []
  let errs6 := if e.date = [] then [str "Invalid or missing date"]
    else match jsParseDate e.date with
      | none => [str "Invalid date format"]
      | some ts => if ts > now then [str "Date cannot be in the future"] else []
  let errors := errs1 ++ errs2 ++ errs3 ++ errs4 ++ errs5 ++ errs6
  (errors.isEmpty, errors)

/-- The `escapeCSVField` helper inside `expenseToCSVRow`: quoting test. -/
def needsQuoting (s : Str) : Bool :=
  s.contains ',' || s.contains '"' || s.contains '\n'

/-- `field.replace(/"/g, '""')`. -/
def doubleQuotes (s : Str) : Str :=
  s.flatMap (fun c => if c = '"' then ['"', '"'] else [c])

/-- `escapeCSVField` from `expenseToCSVRow`. -/
def escapeCSVField (s : Str) : Str :=
  if needsQuoting s then '"' :: (doubleQuotes s ++ ['"']) else s

/-- `CSVDataManager.expenseToCSVRow`: the amount is emitted with
`toString()` and not escaped; the four text fields are escaped. -/
def expenseToCSVRow (e : Expense) : Str :=
  List.intercalate [',']
    [escapeCSVField e.id, numToChars e.amount, escapeCSVField e.category,
     escapeCSVField e.description, escapeCSVField e.date]

/-- Fuelled version of the quote-aware tokenizer loop inside
`csvRowToExpense`: state is the remaining input, the `inQuotes` flag, the
current field accumulator and the fields already emitted (each emitted
field is trimmed, as in the source).  Structural recursion on the fuel so
that the kernel can evaluate it; the wrapper always supplies enough. -/
def parseFieldsF : Nat → Str → Bool → Str → List Str → List Str
  | 0, _, _, cur, acc => acc ++ [jsTrim cur]
  | fuel + 1, s, inQ, cur, acc =>
    match s with
    | [] => acc ++ [jsTrim cur]
    | c :: rest =>
      if c = '"' then
        if inQ ∧ rest.head? = some '"' then
          parseFieldsF fuel rest.tail true (cur ++ ['"']) acc
        else
          parseFieldsF fuel rest (!inQ) cur acc
      else if c = ',' ∧ inQ = false then
        parseFieldsF fuel rest false [] (acc ++ [jsTrim cur])
      else
        parseFieldsF fuel rest inQ (cur ++ [c]) acc

/-- The tokenizer loop of `csvRowToExpense`. -/
def parseFields (s : Str) (inQ : Bool) (cur : Str) (acc : List Str) : List Str :=
  parseFieldsF (s.length + 1) s inQ cur acc

theorem parseFieldsF_irrel : ∀ (f1 f2 : Nat) (s : Str) (q : Bool) (cur : Str)
    (acc : List Str), s.length < f1 → s.length < f2 →
    parseFieldsF f1 s q cur acc = parseFieldsF f2 s q cur acc := by
  intro f1
  induction f1 with
  | zero => intro f2 s q cur acc h1 _; omega
  | succ g1 ih =>
    intro f2 s q cur acc h1 h2
    cases f2 with
    | zero => omega
    | succ g2 =>
      rw [parseFieldsF.eq_def, parseFieldsF.eq_def]
      cases s with
      | nil => rfl
      | cons c rest =>
        simp only [List.length_cons] at h1 h2
        simp only []
        split
        · split
          · next hq =>
            have hrest : rest ≠ [] := by
              intro hr
              rw [hr] at hq
              simp at hq
            cases rest with
            | nil => exact absurd rfl hrest
            | cons a t =>
              simp only [List.tail_cons]
              exact ih g2 t true (cur ++ ['"']) acc (by simp at h1 ⊢; omega)
                (by simp at h2 ⊢; omega)
          · exact ih g2 rest (!q) cur acc (by omega) (by omega)
        · split
          · exact ih g2 rest false [] (acc ++ [jsTrim cur]) (by omega) (by omega)
          · exact ih g2 rest q (cur ++ [c]) acc (by omega) (by omega)

structure RowResult where
  expense : Option Expense
  errors : List Str
deriving DecidableEq

/-- `CSVDataManager.csvRowToExpense`.  Mirrors the source: when the parsed
amount is `NaN` an error is recorded, but if the remaining validation
passes the row is still returned as valid with an empty error list (the
source returns a fresh `errors: []` in that branch). -/
def csvRowToExpense (now : Nat) (row : Str) (rowIndex : Nat) : RowResult :=
  match parseFields row false [] [] with
  | [id, amountStr, category, description, date] =>
    let amount := jsParseFloat amountStr
    let nanErrs := if amount = none then
      [str "Row " ++ natToChars rowIndex ++ str ": Invalid amount"] else []
    let e : Expense :=
      { id := if id = [] then genUUID rowIndex else id, amount := amount,
        category := category, description := description, date := date }
    let v := validateExpense now e
    if v.1 then { expense := some e, errors := [] }
    else { expense := none,
           errors := nanErrs ++ [str "Row " ++ natToChars rowIndex ++ str ": validation failed"] }
  | fs =>
    { expense := none,
      errors := [str "Row " ++ natToChars rowIndex ++ str ": Expected 5 fields, got " ++
                 natToChars fs.length] }

end CSVDataManager

namespace CSVDataManager

/-! ### Stepping lemmas for the tokenizer -/

theorem parseFields_nil (q : Bool) (cur : Str) (acc : List Str) :
    parseFields [] q cur acc = acc ++ [jsTrim cur] := rfl

theorem parseFields_other {c : Char} (h1 : c ≠ '"') (h2 : c ≠ ',')
    (rest : Str) (q : Bool) (cur : Str) (acc : List Str) :
    parseFields (c :: rest) q cur acc = parseFields rest q (cur ++ [c]) acc := by
  rw [parseFields, parseFields,
      show (c :: rest).length + 1 = (rest.length + 1) + 1 from by simp,
      parseFieldsF.eq_def]
  simp [h1, h2]

theorem parseFields_comma_out (rest : Str) (cur : Str) (acc : List Str) :
    parseFields (',' :: rest) false cur acc
      = parseFields rest false [] (acc ++ [jsTrim cur]) := by
  rw [parseFields, parseFields,
      show (',' :: rest).length + 1 = (rest.length + 1) + 1 from by simp,
      parseFieldsF.eq_def]
  simp

theorem parseFields_comma_in (rest : Str) (cur : Str) (acc : List Str) :
    parseFields (',' :: rest) true cur acc
      = parseFields rest true (cur ++ [',']) acc := by
  rw [parseFields, parseFields,
      show (',' :: rest).length + 1 = (rest.length + 1) + 1 from by simp,
      parseFieldsF.eq_def]
  simp

theorem parseFields_quote_open (rest : Str) (cur : Str) (acc : List Str) :
    parseFields ('"' :: rest) false cur acc = parseFields rest true cur acc := by
  rw [parseFields, parseFields,
      show ('"' :: rest).length + 1 = (rest.length + 1) + 1 from by simp,
      parseFieldsF.eq_def]
  simp

theorem parseFields_quote_esc (rest2 : Str) (cur : Str) (acc : List Str) :
    parseFields ('"' :: '"' :: rest2) true cur acc
      = parseFields rest2 true (cur ++ ['"']) acc := by
  rw [parseFields, parseFields,
      show ('"' :: '"' :: rest2).length + 1 = (rest2.length + 2) + 1 from by simp,
      parseFieldsF.eq_def]
  simp only [List.head?_cons, List.tail_cons, and_true, if_pos rfl, true_and,
    if_pos trivial, reduceIte]
  exact parseFieldsF_irrel (rest2.length + 2) (rest2.length + 1) rest2 true
    (cur ++ ['"']) acc (by omega) (by omega)

theorem parseFields_quote_close {rest : Str} (h : rest.head? ≠ some '"')
    (cur : Str) (acc : List Str) :
    parseFields ('"' :: rest) true cur acc = parseFields rest false cur acc := by
  rw [parseFields, parseFields,
      show ('"' :: rest).length + 1 = (rest.length + 1) + 1 from by simp,
      parseFieldsF.eq_def]
  simp [h]

/-- Consuming a run of ordinary characters (no quote, no comma) appends
them to the current field, in or out of quotes. -/
theorem parseFields_plain (f : Str) (hf : ∀ c ∈ f, c ≠ '"' ∧ c ≠ ',')
    (s : Str) (q : Bool) (cur : Str) (acc : List Str) :
    parseFields (f ++ s) q cur acc = parseFields s q (cur ++ f) acc := by
  induction f generalizing cur with
  | nil => simp
  | cons c f' ih =>
    have hc := hf c (by simp)
    rw [List.cons_append, parseFields_other hc.1 hc.2]
    rw [ih (fun x hx => hf x (by simp [hx]))]
    simp

/-- Consuming the quote-doubled body of a quoted field, followed by the
closing quote, appends the original field text and leaves quote mode. -/
theorem parseFields_quoted (f : Str) {s : Str} (hs : s.head? ≠ some '"')
    (cur : Str) (acc : List Str) :
    parseFields (doubleQuotes f ++ '"' :: s) true cur acc
      = parseFields s false (cur ++ f) acc := by
  induction f generalizing cur with
  | nil =>
    simp only [doubleQuotes, List.flatMap_nil, List.nil_append]
    rw [parseFields_quote_close hs]
    simp
  | cons c f' ih =>
    by_cases hc : c = '"'
    · subst hc
      have : doubleQuotes ('"' :: f') = '"' :: '"' :: doubleQuotes f' := by
        simp [doubleQuotes]
      rw [this, List.cons_append, List.cons_append, parseFields_quote_esc, ih]
      simp
    · have hd : doubleQuotes (c :: f') = c :: doubleQuotes f' := by
        simp [doubleQuotes, hc]
      rw [hd, List.cons_append]
      by_cases hcomma : c = ','
      · subst hcomma
        rw [parseFields_comma_in, ih]
        simp
      · rw [parseFields_other hc hcomma, ih]
        simp

/-- Helper: a `Bool`-valued `contains` fact gives non-membership. -/
theorem not_mem_of_contains_eq_false {c : Char} {l : Str}
    (h : l.contains c = false) : c ∉ l := by
  intro hm
  rw [List.contains_eq_any_beq] at h
  simp [List.any_eq_true] at h
  exact h c hm rfl

/-- One escaped field followed by a comma: the tokenizer emits the trimmed
field (no condition on the field content). -/
theorem parseFields_esc_field (f : Str) (s : Str) (acc : List Str) :
    parseFields (escapeCSVField f ++ ',' :: s) false [] acc
      = parseFields s false [] (acc ++ [jsTrim f]) := by
  by_cases hq : needsQuoting f
  · simp only [escapeCSVField, hq, if_true]
    have : ('"' :: (doubleQuotes f ++ ['"'])) ++ ',' :: s
        = '"' :: (doubleQuotes f ++ '"' :: (',' :: s)) := by simp
    rw [this, parseFields_quote_open]
    rw [parseFields_quoted f (by simp) [] acc]
    simp [parseFields_comma_out]
  · have hnm : (',' ∉ f ∧ '"' ∉ f) ∧ '\n' ∉ f := by
      simpa [needsQuoting] using hq
    have hf : ∀ c ∈ f, c ≠ '"' ∧ c ≠ ',' := by
      intro c hc
      constructor
      · intro hcq; subst hcq; exact hnm.1.2 hc
      · intro hcq; subst hcq; exact hnm.1.1 hc
    rw [escapeCSVField, if_neg hq]
    rw [parseFields_plain f hf, parseFields_comma_out]
    simp

/-- A final escaped field at the end of the row. -/
theorem parseFields_esc_last (f : Str) (acc : List Str) :
    parseFields (escapeCSVField f) false [] acc = acc ++ [jsTrim f] := by
  by_cases hq : needsQuoting f
  · simp only [escapeCSVField, hq, if_true]
    have : ('"' :: (doubleQuotes f ++ ['"'])) = '"' :: (doubleQuotes f ++ '"' :: []) := by simp
    rw [this, parseFields_quote_open]
    rw [parseFields_quoted f (by simp) [] acc]
    simp [parseFields_nil]
  · have hnm : (',' ∉ f ∧ '"' ∉ f) ∧ '\n' ∉ f := by
      simpa [needsQuoting] using hq
    have hf : ∀ c ∈ f, c ≠ '"' ∧ c ≠ ',' := by
      intro c hc
      constructor
      · intro hcq; subst hcq; exact hnm.1.2 hc
      · intro hcq; subst hcq; exact hnm.1.1 hc
    rw [escapeCSVField, if_neg hq]
    have := parseFields_plain f hf [] false [] acc
    simpa [parseFields_nil] using this

end CSVDataManager

/-! ### Cleanliness predicates and trim lemmas -/

/-- The string contains no newline. -/
def noNlB (s : Str) : Bool := !(s.contains '\n')

/-- The string neither begins nor ends with a whitespace character
(so JavaScript `trim` leaves it unchanged). -/
def edgeCleanB (s : Str) : Bool :=
  (match s.head? with | some c => !(jsIsSpace c) | none => true) &&
  (match s.getLast? with | some c => !(jsIsSpace c) | none => true)

theorem edgeCleanB_head {s : Str} (h : edgeCleanB s = true) :
    ∀ c, s.head? = some c → jsIsSpace c = false := by
  intro c hc
  simp only [edgeCleanB, Bool.and_eq_true] at h
  rw [hc] at h
  simpa using h.1

theorem edgeCleanB_last {s : Str} (h : edgeCleanB s = true) :
    ∀ c, s.getLast? = some c → jsIsSpace c = false := by
  intro c hc
  simp only [edgeCleanB, Bool.and_eq_true] at h
  rw [hc] at h
  simpa using h.2

theorem noNlB_not_mem {s : Str} (h : noNlB s = true) : ('\n' : Char) ∉ s := by
  simpa [noNlB] using h

theorem dropWhile_eq_self_of_head {p : Char → Bool} {l : Str}
    (h : ∀ c, l.head? = some c → p c = false) : l.dropWhile p = l := by
  cases l with
  | nil => rfl
  | cons c rest =>
    rw [List.dropWhile_cons, h c rfl]
    simp

theorem jsTrim_eq_self {l : Str}
    (h1 : ∀ c, l.head? = some c → jsIsSpace c = false)
    (h2 : ∀ c, l.getLast? = some c → jsIsSpace c = false) : jsTrim l = l := by
  unfold jsTrim
  rw [dropWhile_eq_self_of_head h1]
  rw [dropWhile_eq_self_of_head (by
    intro c hc
    rw [List.head?_reverse] at hc
    exact h2 c hc)]
  exact List.reverse_reverse l

theorem jsTrim_of_edgeClean {l : Str} (h : edgeCleanB l = true) : jsTrim l = l :=
  jsTrim_eq_self (edgeCleanB_head h) (edgeCleanB_last h)

/-- A decimal digit character is not any of the CSV-special characters. -/
theorem digit_clean {c : Char} (h : isDigitCh c = true) :
    c ≠ ',' ∧ c ≠ '"' ∧ c ≠ '\n' ∧ jsIsSpace c = false ∧ c ≠ '#' ∧ c ≠ '-' := by
  simp only [isDigitCh, decide_eq_true_eq] at h
  refine ⟨?_, ?_, ?_, ?_, ?_, ?_⟩
  · rintro rfl; exact absurd h (by decide)
  · rintro rfl; exact absurd h (by decide)
  · rintro rfl; exact absurd h (by decide)
  · simp only [jsIsSpace, Bool.or_eq_false_iff]
    refine ⟨⟨⟨⟨⟨?_, ?_⟩, ?_⟩, ?_⟩, ?_⟩, ?_⟩ <;>
      (simp only [decide_eq_false_iff_not]; rintro rfl; exact absurd h (by decide))
  · rintro rfl; exact absurd h (by decide)
  · rintro rfl; exact absurd h (by decide)

/-- Every character of a printed number is benign: not a separator, quote,
newline, whitespace, hash or (beyond a leading sign handled separately)
anything the CSV layer treats specially. -/
theorem numToChars_clean (a : JSNum) :
    ∀ c ∈ numToChars a, c ≠ ',' ∧ c ≠ '"' ∧ c ≠ '\n' ∧ jsIsSpace c = false ∧ c ≠ '#' := by
  intro c hc
  match a with
  | none =>
    rw [show numToChars none = ['N', 'a', 'N'] from rfl] at hc
    rcases List.mem_cons.mp hc with rfl | hc2
    · exact ⟨by decide, by decide, by decide, by decide, by decide⟩
    rcases List.mem_cons.mp hc2 with rfl | hc3
    · exact ⟨by decide, by decide, by decide, by decide, by decide⟩
    rcases List.mem_cons.mp hc3 with rfl | hc4
    · exact ⟨by decide, by decide, by decide, by decide, by decide⟩
    · simp at hc4
  | some v =>
    simp only [numToChars] at hc
    split at hc
    · rcases List.mem_cons.mp hc with rfl | hm
      · exact ⟨by decide, by decide, by decide, by decide, by decide⟩
      · have := digit_clean (natToChars_all_digits _ c hm)
        exact ⟨this.1, this.2.1, this.2.2.1, this.2.2.2.1, this.2.2.2.2.1⟩
    · have := digit_clean (natToChars_all_digits _ c hc)
      exact ⟨this.1, this.2.1, this.2.2.1, this.2.2.2.1, this.2.2.2.2.1⟩

theorem jsParseFloat_digits {s : Str} (hne : s ≠ []) (hd : ∀ c ∈ s, isDigitCh c) :
    jsParseFloat s = some (digitsVal s) := by
  have hhead : s.head? ≠ some '-' := by
    cases s with
    | nil => simp
    | cons c rest =>
      simp only [List.head?_cons, ne_eq, Option.some_inj]
      intro hcm
      subst hcm
      exact absurd (hd '-' (by simp)) (by decide)
  rw [jsParseFloat, if_neg hhead]
  rw [takeWhile_eq_self_of_all s hd]
  simp [hne]

theorem jsParseFloat_numToChars (a : JSNum) : jsParseFloat (numToChars a) = a := by
  match a with
  | none => decide
  | some v =>
    by_cases hv : v < 0
    · simp only [numToChars, if_pos hv]
      rw [jsParseFloat]
      simp only [List.head?_cons, if_pos rfl, List.tail_cons]
      rw [takeWhile_eq_self_of_all _ (natToChars_all_digits _)]
      rw [if_neg (natToChars_ne_nil _)]
      rw [digitsVal_natToChars]
      have hxy : -((v.natAbs : Int)) = v := by omega
      simp only [if_pos trivial]
      rw [hxy]
    · simp only [numToChars, if_neg hv]
      rw [jsParseFloat_digits (natToChars_ne_nil _) (natToChars_all_digits _)]
      rw [digitsVal_natToChars]
      have hxy : ((v.toNat : Int)) = v := by omega
      simp [hxy]

theorem mem_of_head?_eq {l : Str} {c : Char} (h : l.head? = some c) : c ∈ l := by
  cases l with
  | nil => simp at h
  | cons a t =>
    simp only [List.head?_cons, Option.some_inj] at h
    simp [h]

theorem mem_of_getLast?_eq {l : Str} {c : Char} (h : l.getLast? = some c) : c ∈ l := by
  have hx : c ∈ l.getLast? := by simp [h]
  obtain ⟨hne, rfl⟩ := List.mem_getLast?_eq_getLast hx
  exact List.getLast_mem hne

/-- `jsTrim` is the identity on strings none of whose characters are
whitespace. -/
theorem jsTrim_of_all_nonspace {l : Str} (h : ∀ c ∈ l, jsIsSpace c = false) :
    jsTrim l = l :=
  jsTrim_eq_self (fun c hc => h c (mem_of_head?_eq hc))
    (fun c hc => h c (mem_of_getLast?_eq hc))

namespace CSVDataManager

theorem mem_doubleQuotes {c : Char} {f : Str} (h : c ∈ doubleQuotes f) :
    c ∈ f ∨ c = '"' := by
  induction f with
  | nil => simp [doubleQuotes] at h
  | cons a t ih =>
    rw [show doubleQuotes (a :: t)
        = (if a = '"' then ['"', '"'] else [a]) ++ doubleQuotes t from rfl] at h
    rcases List.mem_append.mp h with h1 | h2
    · split at h1
      · right
        simpa using (by rcases List.mem_cons.mp h1 with rfl | h1b <;> simp_all)
      · left
        simp only [List.mem_singleton] at h1
        simp [h1]
    · rcases ih h2 with hm | hq
      · left; simp [hm]
      · right; exact hq

theorem esc_ne_nil {f : Str} (h : f ≠ []) : escapeCSVField f ≠ [] := by
  rw [escapeCSVField]
  split
  · simp
  · exact h

theorem esc_noNl {f : Str} (h : ('\n' : Char) ∉ f) :
    ('\n' : Char) ∉ escapeCSVField f := by
  rw [escapeCSVField]
  split
  · intro hm
    rcases List.mem_cons.mp hm with hq | hm2
    · exact absurd hq (by decide)
    rcases List.mem_append.mp hm2 with hd | hq2
    · rcases mem_doubleQuotes hd with hin | hq3
      · exact h hin
      · exact absurd hq3 (by decide)
    · simp only [List.mem_singleton] at hq2
      exact absurd hq2 (by decide)
  · exact h

theorem esc_head (f : Str) :
    (escapeCSVField f).head? = some '"' ∨ (escapeCSVField f).head? = f.head? := by
  rw [escapeCSVField]
  split
  · left; rfl
  · right; rfl

theorem esc_getLast (f : Str) :
    (escapeCSVField f).getLast? = some '"' ∨ (escapeCSVField f).getLast? = f.getLast? := by
  rw [escapeCSVField]
  split
  · left
    rw [show ('"' :: (doubleQuotes f ++ ['"'])) = ('"' :: doubleQuotes f) ++ ['"'] from by simp]
    rw [List.getLast?_append_of_ne_nil _ (by simp)]
    rfl
  · right; rfl

theorem needsQuoting_numToChars (a : JSNum) : needsQuoting (numToChars a) = false := by
  have h1 : (',' : Char) ∉ numToChars a :=
    fun hm => (numToChars_clean a _ hm).1 rfl
  have h2 : ('"' : Char) ∉ numToChars a :=
    fun hm => (numToChars_clean a _ hm).2.1 rfl
  have h3 : ('\n' : Char) ∉ numToChars a :=
    fun hm => (numToChars_clean a _ hm).2.2.1 rfl
  simp [needsQuoting, h1, h2, h3]

theorem escapeCSVField_numToChars (a : JSNum) :
    escapeCSVField (numToChars a) = numToChars a := by
  rw [escapeCSVField, needsQuoting_numToChars]
  simp

theorem jsTrim_numToChars (a : JSNum) : jsTrim (numToChars a) = numToChars a :=
  jsTrim_of_all_nonspace (fun c hc => (numToChars_clean a c hc).2.2.2.1)

/-- The emitted CSV row, written as nested appends. -/
theorem expenseToCSVRow_eq (e : Expense) :
    expenseToCSVRow e
      = escapeCSVField e.id ++ ',' :: (escapeCSVField (numToChars e.amount)
        ++ ',' :: (escapeCSVField e.category ++ ',' :: (escapeCSVField e.description
        ++ ',' :: escapeCSVField e.date))) := by
  rw [expenseToCSVRow, escapeCSVField_numToChars]
  simp [List.intercalate, List.intersperse]

/-- Tokenizing an encoded five-field row yields the five trimmed fields. -/
theorem parseFields_row5 (f1 f2 f3 f4 f5 : Str) :
    parseFields (escapeCSVField f1 ++ ',' :: (escapeCSVField f2
        ++ ',' :: (escapeCSVField f3 ++ ',' :: (escapeCSVField f4
        ++ ',' :: escapeCSVField f5)))) false [] []
      = [jsTrim f1, jsTrim f2, jsTrim f3, jsTrim f4, jsTrim f5] := by
  rw [parseFields_esc_field, parseFields_esc_field, parseFields_esc_field,
      parseFields_esc_field, parseFields_esc_last]
  simp

end CSVDataManager

namespace CSVDataManager

/-- Encoding then tokenizing-and-validating one record recovers it exactly,
provided the record is valid, its id is non-empty, and its text fields do
not begin or end with whitespace. -/
theorem csvRowToExpense_roundtrip (now : Nat) (e : Expense) (i : Nat)
    (hv : (validateExpense now e).1 = true)
    (hidNe : e.id ≠ [])
    (hidE : edgeCleanB e.id = true) (hcatE : edgeCleanB e.category = true)
    (hdescE : edgeCleanB e.description = true) (hdateE : edgeCleanB e.date = true) :
    csvRowToExpense now (expenseToCSVRow e) i = { expense := some e, errors := [] } := by
  have hfields : parseFields (expenseToCSVRow e) false [] []
      = [e.id, numToChars e.amount, e.category, e.description, e.date] := by
    rw [expenseToCSVRow_eq, parseFields_row5]
    rw [jsTrim_of_edgeClean hidE, jsTrim_numToChars, jsTrim_of_edgeClean hcatE,
        jsTrim_of_edgeClean hdescE, jsTrim_of_edgeClean hdateE]
  simp only [csvRowToExpense, hfields]
  simp only [jsParseFloat_numToChars, hidNe, if_neg, hv]
  simp [hv]

theorem row_head? (e : Expense) (hidNe : e.id ≠ []) :
    (expenseToCSVRow e).head? = (escapeCSVField e.id).head? := by
  rw [expenseToCSVRow_eq]
  cases hA : escapeCSVField e.id with
  | nil => exact absurd hA (esc_ne_nil hidNe)
  | cons a t => simp

theorem getLast?_append_cons (P Q : Str) (hQ : Q ≠ []) :
    (P ++ ',' :: Q).getLast? = Q.getLast? := by
  rw [List.getLast?_append_of_ne_nil P (by simp)]
  rw [show (',' :: Q) = [','] ++ Q from rfl, List.getLast?_append_of_ne_nil _ hQ]

theorem row_getLast? (e : Expense) (hdateNe : e.date ≠ []) :
    (expenseToCSVRow e).getLast? = (escapeCSVField e.date).getLast? := by
  rw [expenseToCSVRow_eq]
  rw [getLast?_append_cons _ _ (by simp [esc_ne_nil hdateNe])]
  rw [getLast?_append_cons _ _ (by simp [esc_ne_nil hdateNe])]
  rw [getLast?_append_cons _ _ (by simp [esc_ne_nil hdateNe])]
  rw [getLast?_append_cons _ _ (esc_ne_nil hdateNe)]

/-- A valid record has a non-empty id (otherwise the first validator error
fires). -/
theorem valid_id_ne {now : Nat} {e : Expense}
    (hv : (validateExpense now e).1 = true) : e.id ≠ [] := by
  intro hid
  simp [validateExpense, hid] at hv

/-- A valid record has a non-empty date field. -/
theorem valid_date_ne {now : Nat} {e : Expense}
    (hv : (validateExpense now e).1 = true) : e.date ≠ [] := by
  intro hdate
  simp [validateExpense, hdate] at hv

/-- The encoded row contains no newline when none of the record fields
does. -/
theorem row_noNl (e : Expense)
    (h1 : noNlB e.id = true) (h2 : noNlB e.category = true)
    (h3 : noNlB e.description = true) (h4 : noNlB e.date = true) :
    ('\n' : Char) ∉ expenseToCSVRow e := by
  intro hm
  rw [expenseToCSVRow_eq] at hm
  rcases List.mem_append.mp hm with hA | hm1
  · exact esc_noNl (noNlB_not_mem h1) hA
  rcases List.mem_cons.mp hm1 with hc | hm2
  · exact absurd hc (by decide)
  rcases List.mem_append.mp hm2 with hA | hm3
  · exact esc_noNl (fun hmm => (numToChars_clean e.amount '\n' hmm).2.2.1 rfl) hA
  rcases List.mem_cons.mp hm3 with hc | hm4
  · exact absurd hc (by decide)
  rcases List.mem_append.mp hm4 with hA | hm5
  · exact esc_noNl (noNlB_not_mem h2) hA
  rcases List.mem_cons.mp hm5 with hc | hm6
  · exact absurd hc (by decide)
  rcases List.mem_append.mp hm6 with hA | hm7
  · exact esc_noNl (noNlB_not_mem h3) hA
  rcases List.mem_cons.mp hm7 with hc | hm8
  · exact absurd hc (by decide)
  · exact esc_noNl (noNlB_not_mem h4) hm8

end CSVDataManager

/-! ### Split/join lemmas -/

theorem splitNl_no_nl {a : Str} (ha : ('\n' : Char) ∉ a) : splitNl a = [a] := by
  induction a with
  | nil => rfl
  | cons c rest ih =>
    have hc : c ≠ '\n' := fun h => ha (h ▸ List.mem_cons_self c rest)
    rw [splitNl, if_neg hc, ih (fun hm => ha (List.mem_cons_of_mem _ hm))]

theorem splitNl_append_nl {a : Str} (ha : ('\n' : Char) ∉ a) (r : Str) :
    splitNl (a ++ '\n' :: r) = a :: splitNl r := by
  induction a with
  | nil => simp [splitNl]
  | cons c rest ih =>
    have hc : c ≠ '\n' := fun h => ha (h ▸ List.mem_cons_self c rest)
    rw [List.cons_append, splitNl, if_neg hc,
        ih (fun hm => ha (List.mem_cons_of_mem _ hm))]

theorem joinNl_cons_of_ne_nil (a : Str) {A : List Str} (hA : A ≠ []) :
    joinNl (a :: A) = a ++ '\n' :: joinNl A := by
  cases A with
  | nil => exact absurd rfl hA
  | cons b B => rfl

theorem splitNl_joinNl_nl {A : List Str} (hne : A ≠ [])
    (hA : ∀ l ∈ A, ('\n' : Char) ∉ l) (r : Str) :
    splitNl (joinNl A ++ '\n' :: r) = A ++ splitNl r := by
  induction A with
  | nil => exact absurd rfl hne
  | cons a A' ih =>
    cases hA' : A' with
    | nil =>
      subst hA'
      rw [show joinNl [a] = a from rfl]
      rw [splitNl_append_nl (hA a (by simp))]
      rfl
    | cons b B =>
      rw [← hA']
      rw [joinNl_cons_of_ne_nil a (by simp [hA'])]
      rw [List.append_assoc, List.cons_append]
      rw [splitNl_append_nl (hA a (by simp))]
      rw [ih (by simp [hA']) (fun l hl => hA l (by simp [hl]))]
      rfl

theorem splitNl_joinNl {A : List Str} (hne : A ≠ [])
    (hA : ∀ l ∈ A, ('\n' : Char) ∉ l) :
    splitNl (joinNl A) = A := by
  induction A with
  | nil => exact absurd rfl hne
  | cons a A' ih =>
    cases hA' : A' with
    | nil =>
      subst hA'
      exact splitNl_no_nl (hA a (by simp))
    | cons b B =>
      rw [← hA']
      rw [joinNl_cons_of_ne_nil a (by simp [hA'])]
      rw [splitNl_append_nl (hA a (by simp))]
      rw [ih (by simp [hA']) (fun l hl => hA l (by simp [hl]))]

/-! ### Substring facts -/

theorem jsIncludes_false_of_char {l pat : Str} {c : Char}
    (hc : c ∈ pat) (hl : c ∉ l) : jsIncludes l pat = false := by
  apply Bool.eq_false_iff.mpr
  intro htrue
  simp only [jsIncludes, List.any_eq_true, List.mem_range] at htrue
  obtain ⟨i, _, hp⟩ := htrue
  have hpre := List.isPrefixOf_iff_prefix.mp hp
  exact hl (List.drop_subset i l (hpre.subset hc))

namespace CSVDataManager

/-- The column-header signature `loadExpenses` searches for. -/
def csvSig : Str := str "id,amount,category"

/-- `getFileName`. -/
def getFileName (username : Str) : Str :=
  str "pak-kharcha-" ++ jsToLower username ++ str "-expenses.csv"

/-- The comment header emitted by `saveExpenses`.  The export timestamp
(`new Date().toISOString()` in the source) is modelled as the decimal
millisecond clock value. -/
def csvHeaderLines (username : Str) (now : Nat) (count : Nat) : List Str :=
  [str "# Pak-Kharcha Expense Data Export",
   str "# Version: 2.0",
   str "# User: " ++ username,
   str "# Export Date: " ++ natToChars now,
   str "# Total Expenses: " ++ natToChars count,
   str "#",
   str "id,amount,category,description,date"]

/-- The full CSV text written by `saveExpenses`:
`csvHeader.join('\n') + '\n' + rows.join('\n')`. -/
def csvContent (now : Nat) (username : Str) (expenses : List Expense) : Str :=
  joinNl (csvHeaderLines username now expenses.length)
    ++ '\n' :: joinNl (expenses.map expenseToCSVRow)

/-- The header search loop of `loadExpenses`: index of the first line
containing the signature, plus one; `0` when no line matches. -/
def findDataStart (lines : List Str) : Nat :=
  match lines.findIdx? (fun l => jsIncludes l csvSig) with
  | some i => i + 1
  | none => 0

/-- The row loop of `loadExpenses`: skips blank and comment lines, parses
the rest, collecting records and errors.  The second argument is the
0-based index of the first line in the full line array (row indices in
messages are 1-based, as in the source). -/
def parseRowsAux (now : Nat) : List Str → Nat → List Expense × List Str
  | [], _ => ([], [])
  | l :: rest, i =>
    let line := jsTrim l
    if line ≠ [] ∧ line.head? ≠ some '#' then
      let r := csvRowToExpense now line (i + 1)
      let p := parseRowsAux now rest (i + 1)
      match r.expense with
      | some e => (e :: p.1, r.errors ++ p.2)
      | none => (p.1, r.errors ++ p.2)
    else parseRowsAux now rest (i + 1)

/-- The decoding portion of `loadExpenses`: split into lines, locate the
column header, parse the data rows.  Returns `(records, errors)`. -/
def decodeCSV (now : Nat) (content : Str) : List Expense × List Str :=
  let lines := splitNl content
  let start := findDataStart lines
  parseRowsAux now (lines.drop start) start

/-- All side conditions under which one record survives the CSV round
trip: it passes the validator, its id does not begin with `#` (which would
make its row look like a comment), and its text fields contain no newline
and no leading/trailing whitespace. -/
def cleanExpense (now : Nat) (e : Expense) : Bool :=
  (validateExpense now e).1 && !(e.id.head? == some '#') &&
  noNlB e.id && edgeCleanB e.id &&
  noNlB e.category && edgeCleanB e.category &&
  noNlB e.description && edgeCleanB e.description &&
  noNlB e.date && edgeCleanB e.date

theorem cleanExpense_parts {now : Nat} {e : Expense}
    (h : cleanExpense now e = true) :
    (validateExpense now e).1 = true ∧ e.id.head? ≠ some '#' ∧
    noNlB e.id = true ∧ edgeCleanB e.id = true ∧
    noNlB e.category = true ∧ edgeCleanB e.category = true ∧
    noNlB e.description = true ∧ edgeCleanB e.description = true ∧
    noNlB e.date = true ∧ edgeCleanB e.date = true := by
  simp only [cleanExpense, Bool.and_eq_true, Bool.not_eq_true', beq_eq_false_iff_ne,
    ne_eq] at h
  obtain ⟨⟨⟨⟨⟨⟨⟨⟨⟨h1, h2⟩, h3⟩, h4⟩, h5⟩, h6⟩, h7⟩, h8⟩, h9⟩, h10⟩ := h
  exact ⟨h1, h2, h3, h4, h5, h6, h7, h8, h9, h10⟩

/-- The encoded row of a clean record is non-empty, is left unchanged by
`trim`, and does not begin with `#`. -/
theorem row_line_facts {now : Nat} {e : Expense} (h : cleanExpense now e = true) :
    jsTrim (expenseToCSVRow e) = expenseToCSVRow e ∧
    expenseToCSVRow e ≠ [] ∧
    (expenseToCSVRow e).head? ≠ some '#' := by
  obtain ⟨hv, hHash, _, hidE, _, _, _, _, _, hdateE⟩ := cleanExpense_parts h
  have hidNe := valid_id_ne hv
  have hdateNe := valid_date_ne hv
  have hhead := row_head? e hidNe
  have hlast := row_getLast? e hdateNe
  have hrowNe : expenseToCSVRow e ≠ [] := by
    intro hnil
    rw [hnil] at hhead
    cases hA : escapeCSVField e.id with
    | nil => exact esc_ne_nil hidNe hA
    | cons a t => rw [hA] at hhead; simp at hhead
  have hheadSpace : ∀ c, (expenseToCSVRow e).head? = some c → jsIsSpace c = false := by
    intro c hc
    rw [hhead] at hc
    rcases esc_head e.id with hq | hi
    · rw [hq] at hc
      simp only [Option.some_inj] at hc
      subst hc
      decide
    · rw [hi] at hc
      exact edgeCleanB_head hidE c hc
  have hlastSpace : ∀ c, (expenseToCSVRow e).getLast? = some c → jsIsSpace c = false := by
    intro c hc
    rw [hlast] at hc
    rcases esc_getLast e.date with hq | hi
    · rw [hq] at hc
      simp only [Option.some_inj] at hc
      subst hc
      decide
    · rw [hi] at hc
      exact edgeCleanB_last hdateE c hc
  refine ⟨jsTrim_eq_self hheadSpace hlastSpace, hrowNe, ?_⟩
  intro hc
  rw [hhead] at hc
  rcases esc_head e.id with hq | hi
  · rw [hq] at hc
    simp at hc
  · rw [hi] at hc
    exact hHash hc

/-- The parse loop maps encoded rows of clean records back to exactly
those records, with no errors, from any starting index. -/
theorem parseRowsAux_map (now : Nat) (D : List Expense)
    (hD : ∀ e ∈ D, cleanExpense now e = true) :
    ∀ i, parseRowsAux now (D.map expenseToCSVRow) i = (D, []) := by
  induction D with
  | nil => intro i; rfl
  | cons e D' ih =>
    intro i
    have he := hD e (by simp)
    obtain ⟨htrim, hne, hhash⟩ := row_line_facts he
    obtain ⟨hv, _, _, hidE, _, hcatE, _, hdescE, _, hdateE⟩ := cleanExpense_parts he
    rw [List.map_cons, parseRowsAux]
    simp only [htrim]
    rw [if_pos ⟨hne, hhash⟩]
    simp only [csvRowToExpense_roundtrip now e (i + 1) hv (valid_id_ne hv) hidE hcatE
      hdescE hdateE]
    simp [ih (fun x hx => hD x (by simp [hx])) (i + 1)]

end CSVDataManager

theorem noNl_natToChars (n : Nat) : ('\n' : Char) ∉ natToChars n := by
  intro hm
  exact absurd (natToChars_all_digits n _ hm) (by decide)

namespace CSVDataManager

theorem header_noNl {username : Str} (hu : noNlB username = true)
    (now count : Nat) :
    ∀ l ∈ csvHeaderLines username now count, ('\n' : Char) ∉ l := by
  intro l hl
  simp only [csvHeaderLines, List.mem_cons, List.not_mem_nil, or_false] at hl
  rcases hl with rfl | rfl | rfl | rfl | rfl | rfl | rfl
  · decide
  · decide
  · intro hm
    rcases List.mem_append.mp hm with h | h
    · exact absurd h (by decide)
    · exact noNlB_not_mem hu h
  · intro hm
    rcases List.mem_append.mp hm with h | h
    · exact absurd h (by decide)
    · exact noNl_natToChars now h
  · intro hm
    rcases List.mem_append.mp hm with h | h
    · exact absurd h (by decide)
    · exact noNl_natToChars count h
  · decide
  · decide

theorem dateLine_sig_false (n : Nat) :
    jsIncludes (str "# Export Date: " ++ natToChars n) csvSig = false := by
  refine jsIncludes_false_of_char (c := 'i') (by decide) ?_
  intro hm
  rcases List.mem_append.mp hm with h | h
  · exact absurd h (by decide)
  · exact absurd (natToChars_all_digits _ _ h) (by decide)

theorem countLine_sig_false (n : Nat) :
    jsIncludes (str "# Total Expenses: " ++ natToChars n) csvSig = false := by
  refine jsIncludes_false_of_char (c := 'i') (by decide) ?_
  intro hm
  rcases List.mem_append.mp hm with h | h
  · exact absurd h (by decide)
  · exact absurd (natToChars_all_digits _ _ h) (by decide)

theorem findDataStart_header {username : Str}
    (hU : jsIncludes (str "# User: " ++ username) csvSig = false)
    (now count : Nat) (rows' : List Str) :
    findDataStart (csvHeaderLines username now count ++ rows') = 7 := by
  rw [findDataStart, csvHeaderLines]
  simp only [List.cons_append, List.nil_append]
  rw [List.findIdx?_cons, if_neg (by rw [show jsIncludes (str "# Pak-Kharcha Expense Data Export") csvSig = false from by decide]; simp)]
  rw [List.findIdx?_cons, if_neg (by rw [show jsIncludes (str "# Version: 2.0") csvSig = false from by decide]; simp)]
  rw [List.findIdx?_cons, if_neg (by rw [hU]; simp)]
  rw [List.findIdx?_cons, if_neg (by rw [dateLine_sig_false now]; simp)]
  rw [List.findIdx?_cons, if_neg (by rw [countLine_sig_false count]; simp)]
  rw [List.findIdx?_cons, if_neg (by rw [show jsIncludes (str "#") csvSig = false from by decide]; simp)]
  rw [List.findIdx?_cons, if_pos (by rw [show jsIncludes (str "id,amount,category,description,date") csvSig = true from by decide])]

/-- C1 as provable on the code (see the counterexample for the claim as
stated): encoding a dataset of clean, valid records and decoding it
recovers exactly the records, ignoring the informational header. -/
theorem decode_encode (now : Nat) (username : Str) (D : List Expense)
    (hu : noNlB username = true)
    (hU : jsIncludes (str "# User: " ++ username) csvSig = false)
    (hD : ∀ e ∈ D, cleanExpense now e = true) :
    (decodeCSV now (csvContent now username D)).1 = D := by
  rw [decodeCSV, csvContent]
  have hsplit : splitNl (joinNl (csvHeaderLines username now D.length)
      ++ '\n' :: joinNl (D.map expenseToCSVRow))
      = csvHeaderLines username now D.length ++ splitNl (joinNl (D.map expenseToCSVRow)) :=
    splitNl_joinNl_nl (by simp [csvHeaderLines]) (header_noNl hu now D.length) _
  rw [hsplit]
  cases hDnil : D with
  | nil =>
    subst hDnil
    rw [show joinNl (List.map expenseToCSVRow []) = [] from rfl]
    rw [show splitNl [] = [[]] from rfl]
    rw [findDataStart_header hU]
    simp [csvHeaderLines, parseRowsAux, jsTrim]
  | cons e0 D' =>
    rw [← hDnil]
    have hDne : D ≠ [] := by simp [hDnil]
    have hrowsNl : ∀ l ∈ D.map expenseToCSVRow, ('\n' : Char) ∉ l := by
      intro l hl
      obtain ⟨e, he, rfl⟩ := List.mem_map.mp hl
      obtain ⟨_, _, h3, _, h5, _, h7, _, h9, _⟩ := cleanExpense_parts (hD e he)
      exact row_noNl e h3 h5 h7 h9
    rw [splitNl_joinNl (by simp [hDne]) hrowsNl]
    rw [findDataStart_header hU]
    rw [show (csvHeaderLines username now D.length ++ D.map expenseToCSVRow).drop 7
        = D.map expenseToCSVRow from by simp [csvHeaderLines]]
    rw [parseRowsAux_map now D hD 7]

end CSVDataManager

/-! ### Storage model

`localStorage` is modelled as an association list in key insertion order.
Values are JavaScript strings; the JSON payloads among them are modelled by
their parsed shapes (`JSON.parse ∘ JSON.stringify` is the identity on the
record types this application stores), with `text` for the raw CSV
payloads. -/

structure CSVMeta where
  version : Str
  username : Str
  lastSaved : Nat
  expenseCount : Nat
  checksum : Str
deriving DecidableEq

structure DateRange where
  earliest : Str
  latest : Str
deriving DecidableEq

structure BackupMetadata where
  version : Str
  username : Str
  createdAt : Nat
  expenseCount : Nat
  totalAmount : JSNum
  dateRange : DateRange
  categories : List Str
  checksum : Str
deriving DecidableEq

structure BackupFile where
  metadata : BackupMetadata
  expenses : List Expense
  format : Str
deriving DecidableEq

inductive Frequency
  | daily
  | weekly
  | monthly
deriving DecidableEq

structure BackupSchedule where
  enabled : Bool
  frequency : Frequency
  lastBackup : Option Nat
  nextBackup : Option Nat
  retentionDays : Nat
deriving DecidableEq

inductive StoredVal
  | text (s : Str)
  | backup (b : BackupFile)
  | schedule (s : BackupSchedule)
  | meta (m : CSVMeta)
deriving DecidableEq

abbrev Storage := List (Str × StoredVal)

def getItem (st : Storage) (k : Str) : Option StoredVal :=
  (st.find? (fun kv => kv.1 == k)).map (fun kv => kv.2)

def setItem (st : Storage) (k : Str) (v : StoredVal) : Storage :=
  if st.any (fun kv => kv.1 == k) then
    st.map (fun kv => if kv.1 == k then (k, v) else kv)
  else st ++ [(k, v)]

def removeItem (st : Storage) (k : Str) : Storage :=
  st.filter (fun kv => !(kv.1 == k))

/-- Model of `JSON.stringify` on one expense (canonical field order as in
the source records). -/
def jsonOfExpense (e : Expense) : Str :=
  str "\x7b\"id\":\"" ++ e.id ++ str "\",\"amount\":" ++ numToChars e.amount ++
  str ",\"category\":\"" ++ e.category ++ str "\",\"description\":\"" ++
  e.description ++ str "\",\"date\":\"" ++ e.date ++ str "\"\x7d"

/-- Model of `JSON.stringify(expenses)`. -/
def jsonOfExpenses (es : List Expense) : Str :=
  str "[" ++ List.intercalate (str ",") (es.map jsonOfExpense) ++ str "]"

namespace CSVDataManager

def storageKey (username : Str) : Str := str "csv-" ++ getFileName username
def backupKey (username : Str) : Str := str "csv-backup-" ++ getFileName username
def metadataKey (username : Str) : Str := str "csv-metadata-" ++ getFileName username

/-- `CSVDataManager.saveExpenses`.  `none` models the thrown error for a
falsy username (the `Array.isArray` guard cannot fail in the model); on
success the prior payload is copied to the backup key (unless falsy),
the new content is written, and fresh metadata with a checksum is stored. -/
def saveExpenses (now : Nat) (username : Str) (expenses : List Expense)
    (st : Storage) : Option Storage :=
  if username = [] then none
  else
    let content := csvContent now username expenses
    let st1 := match getItem st (storageKey username) with
      | some v => if v = .text [] then st else setItem st (backupKey username) v
      | none => st
    let st2 := setItem st1 (storageKey username) (.text content)
    let st3 := setItem st2 (metadataKey username)
      (.meta { version := str "2.0", username := username, lastSaved := now,
               expenseCount := expenses.length,
               checksum := calculateChecksum content })
    some st3

structure LoadResult where
  expenses : List Expense
  warnings : List Str
deriving DecidableEq

/-- `CSVDataManager.loadExpenses`: `none` models the thrown error for a
falsy username; console warnings are returned in `warnings`.  A non-string
value at the dataset key cannot occur in any modelled flow and is read as
an absent payload. -/
def loadExpenses (now : Nat) (username : Str) (st : Storage) : Option LoadResult :=
  if username = [] then none
  else
    match getItem st (storageKey username) with
    | none => some { expenses := [], warnings := [] }
    | some (.text content) =>
      let w1 : List Str :=
        match getItem st (metadataKey username) with
        | some (.meta m) =>
          if m.checksum ≠ [] ∧ m.checksum ≠ calculateChecksum content then
            [str "Data integrity check failed - checksum mismatch"]
          else []
        | some _ => [str "Failed to verify data integrity"]
        | none => []
      let pr := decodeCSV now content
      some { expenses := pr.1, warnings := w1 ++ pr.2 }
    | some _ => some { expenses := [], warnings := [] }

structure CSVImportResult where
  success : Bool
  importedCount : Nat
  skippedCount : Nat
  errors : List Str
deriving DecidableEq

structure CsvFile where
  name : Str
  content : Str
deriving DecidableEq

/-- The duplicate test inside `importUserData`: id match, or all of
amount/category/description/date match (`===` on the amount, so a `NaN`
amount never equals anything, `NaN` included). -/
def isDuplicate (acc : List Expense) (e : Expense) : Bool :=
  acc.any (fun x => x.id == e.id ||
    (jsNumEq x.amount e.amount && x.category == e.category &&
     x.description == e.description && x.date == e.date))

/-- The header detection of `importUserData`:
`line.trim().toLowerCase()` contains `id`, `amount` and `category`. -/
def importHeaderMatch (l : Str) : Bool :=
  let low := jsToLower (jsTrim l)
  jsIncludes low (str "id") && jsIncludes low (str "amount") &&
    jsIncludes low (str "category")

/-- `dataStartIndex` of `importUserData`: one past the first matching
line, `0` when none matches (which the source rejects). -/
def findImportStart (lines : List Str) : Nat :=
  match lines.findIdx? importHeaderMatch with
  | some i => i + 1
  | none => 0

structure ImportLoopState where
  acc : List Expense
  imported : Nat
  skipped : Nat
  errors : List Str
deriving DecidableEq

/-- The row loop of `importUserData` with duplicate detection against the
rows accepted so far. -/
def importLoop (now : Nat) : List Str → Nat → ImportLoopState → ImportLoopState
  | [], _, s => s
  | l :: rest, i, s =>
    let line := jsTrim l
    if line ≠ [] ∧ line.head? ≠ some '#' then
      let r := csvRowToExpense now line (i + 1)
      match r.expense with
      | some e =>
        if isDuplicate s.acc e then
          importLoop now rest (i + 1)
            { s with
              skipped := s.skipped + 1
              errors := s.errors ++
                [str "Row " ++ natToChars (i + 1) ++ str ": Duplicate expense skipped"] }
        else
          importLoop now rest (i + 1)
            { s with acc := s.acc ++ [e], imported := s.imported + 1 }
      | none =>
        importLoop now rest (i + 1)
          { s with skipped := s.skipped + 1, errors := s.errors ++ r.errors }
    else importLoop now rest (i + 1) s

/-- `CSVDataManager.importUserData`.  Every thrown error is caught by the
source and returned as a failure result with the state unchanged. -/
def importUserData (now : Nat) (username : Str) (file : CsvFile)
    (st : Storage) : CSVImportResult × Storage :=
  let fail : Str → CSVImportResult := fun msg =>
    { success := false, importedCount := 0, skippedCount := 0, errors := [msg] }
  if !(jsEndsWith (jsToLower file.name) (str ".csv")) then
    (fail (str "File must be a CSV file"), st)
  else if file.content.length > 5 * 1024 * 1024 then
    (fail (str "File size too large. Maximum size is 5MB."), st)
  else if jsTrim file.content = [] then
    (fail (str "File is empty"), st)
  else
    let lines := splitNl file.content
    let start := findImportStart lines
    if start = 0 then (fail (str "Invalid CSV format: Header row not found"), st)
    else
      let out := importLoop now (lines.drop start) start
        { acc := [], imported := 0, skipped := 0, errors := [] }
      if out.acc = [] then (fail (str "No valid expenses found in the file"), st)
      else
        match saveExpenses now username out.acc st with
        | some st' =>
          ({ success := true, importedCount := out.imported,
             skippedCount := out.skipped, errors := out.errors }, st')
        | none => (fail (str "Invalid username or expenses data"), st)

end CSVDataManager

/-! ### BackupManager (src/lib/backup-manager.ts) -/

/-- Lexicographic string comparison (JavaScript default `Array.sort`
comparison on strings, by code unit). -/
def lexLe : Str → Str → Bool
  | [], _ => true
  | _ :: _, [] => false
  | x :: xs, y :: ys =>
    if x.toNat < y.toNat then true
    else if y.toNat < x.toNat then false
    else lexLe xs ys

def insertLex (a : Str) : List Str → List Str
  | [] => [a]
  | b :: rest => if lexLe a b then a :: b :: rest else b :: insertLex a rest

/-- Model of `dates.sort()`. -/
def sortStrs (l : List Str) : List Str := l.foldr insertLex []

/-- Model of `[...new Set(l)]`: deduplication keeping first occurrences. -/
def dedupAux (seen : List Str) : List Str → List Str
  | [] => []
  | x :: rest =>
    if seen.contains x then dedupAux seen rest
    else x :: dedupAux (x :: seen) rest

def dedupStrs (l : List Str) : List Str := dedupAux [] l

namespace BackupManager

def bkPref (username : Str) : Str := str "backup-" ++ username ++ str "-"
def scheduleKey (username : Str) : Str := str "backup-schedule-" ++ username

/-- `BackupManager.validateExpense`: throws on the first failing check,
modelled as `some errorMessage`; `none` means the record is accepted.
Note what it does NOT check, unlike `CSVDataManager.validateExpense`: no
amount upper bound, no category whitelist, no description length bounds,
and no future-date check (any parseable date passes).  A `NaN` amount
passes (`NaN <= 0` is false). -/
def validateExpense (e : Expense) : Option Str :=
  if e.id = [] then some (str "Invalid expense ID")
  else if (match e.amount with | none => false | some v => v ≤ 0 : Bool) then
    some (str "Invalid expense amount")
  else if e.category = [] then some (str "Invalid expense category")
  else if e.description = [] then some (str "Invalid expense description")
  else if e.date = [] ∨ jsParseDate e.date = none then
    some (str "Invalid expense date")
  else none

def insertByCreated (m : BackupMetadata) : List BackupMetadata → List BackupMetadata
  | [] => [m]
  | x :: rest =>
    if x.createdAt < m.createdAt then m :: x :: rest
    else x :: insertByCreated m rest

/-- Model of `backups.sort((a, b) => b.createdAt - a.createdAt)`:
descending by creation time. -/
def sortByCreatedDesc (l : List BackupMetadata) : List BackupMetadata :=
  l.foldr insertByCreated []

/-- `BackupManager.getLocalBackups`: metadata of every parseable backup
under the owner prefix, newest first.  A value that fails `JSON.parse` or
parses without a `metadata` field is skipped. -/
def getLocalBackups (username : Str) (st : Storage) : List BackupMetadata :=
  sortByCreatedDesc (st.filterMap (fun kv =>
    if (bkPref username).isPrefixOf kv.1 then
      match kv.2 with
      | .backup b => some b.metadata
      | _ => none
    else none))

/-- `BackupManager.storeLocalBackup` at store time `tStore`
(`Date.now()`).  After inserting, prunes all but the five newest backups —
but the key it removes is rebuilt from each backup's `metadata.createdAt`,
not from the key the backup was stored under. -/
def storeLocalBackup (tStore : Nat) (username : Str) (b : BackupFile)
    (st : Storage) : Storage :=
  let key := bkPref username ++ natToChars tStore
  let st1 := setItem st key (.backup b)
  let backups := getLocalBackups username st1
  if backups.length > 5 then
    (backups.drop 5).foldl
      (fun s m => removeItem s (bkPref username ++ natToChars m.createdAt)) st1
  else st1

/-- `BackupManager.createBackup`: `tMeta` is the `new Date()` read that
stamps `metadata.createdAt` (also used for the download file name, an
external side effect not modelled), `tStore` the later `Date.now()` read
inside `storeLocalBackup`.  `none` models the throw on an empty record
set. -/
def createBackup (tMeta tStore : Nat) (username : Str)
    (expenses : List Expense) (st : Storage) : Option (Str × Storage) :=
  if expenses = [] then none
  else
    let dates := sortStrs (expenses.map (fun e => e.date))
    let metadata : BackupMetadata :=
      { version := str "1.0"
        username := username
        createdAt := tMeta
        expenseCount := expenses.length
        totalAmount := expenses.foldl (fun s e => jsAdd s e.amount) (some 0)
        dateRange := { earliest := dates.head?.getD [], latest := dates.getLast?.getD [] }
        categories := dedupStrs (expenses.map (fun e => e.category))
        checksum := calculateChecksum (jsonOfExpenses expenses) }
    let backupFile : BackupFile :=
      { metadata := metadata, expenses := expenses, format := str "pak-kharcha-backup" }
    let filename := str "pak-kharcha-backup-" ++ username ++ str "-" ++ natToChars tMeta
    some (filename, storeLocalBackup tStore username backupFile st)

/-- The parsed shape of an uploaded backup file: sections may be missing
(`JSON.parse` succeeded but the object lacks them), or the file may not be
JSON at all. -/
structure BackupFileRaw where
  metadata : Option BackupMetadata
  expenses : Option (List Expense)
  format : Str
deriving DecidableEq

inductive FileData
  | notJson
  | json (r : BackupFileRaw)
deriving DecidableEq

structure UploadFile where
  name : Str
  data : FileData
deriving DecidableEq

structure RestoreResult where
  success : Bool
  restoredCount : Nat
  errors : List Str
  metadata : Option BackupMetadata
deriving DecidableEq

/-- `BackupManager.restoreFromBackup`.  The checksum recomputation is
bound and compared but only feeds a console warning; it never affects the
result.  Validation errors are collected per record; the valid subset is
committed via `CSVDataManager.saveExpenses` unless it is empty. -/
def restoreFromBackup (now : Nat) (username : Str) (file : UploadFile)
    (st : Storage) : RestoreResult × Storage :=
  let fail : Str → RestoreResult := fun msg =>
    { success := false, restoredCount := 0, errors := [msg], metadata := none }
  if !(jsEndsWith (jsToLower file.name) (str ".json")) then
    (fail (str "Backup files must be in JSON format"), st)
  else match file.data with
  | .notJson => (fail (str "Unexpected token in JSON"), st)
  | .json r =>
    if r.format ≠ str "pak-kharcha-backup" then
      (fail (str "Invalid backup file format"), st)
    else match r.metadata, r.expenses with
    | some md, some exps =>
      let _mismatch : Bool := !(md.checksum == calculateChecksum (jsonOfExpenses exps))
      let errors := exps.enum.filterMap (fun p =>
        (validateExpense p.2).map (fun msg =>
          str "Expense " ++ natToChars (p.1 + 1) ++ str ": " ++ msg))
      let validExpenses := exps.filter (fun e => (validateExpense e).isNone)
      if validExpenses = [] then
        (fail (str "No valid expenses found in backup file"), st)
      else match CSVDataManager.saveExpenses now username validExpenses st with
        | some st' =>
          ({ success := true, restoredCount := validExpenses.length,
             errors := errors, metadata := some md }, st')
        | none => (fail (str "Invalid username or expenses data"), st)
    | _, _ => (fail (str "Corrupted backup file - missing required sections"), st)

/-- `BackupManager.restoreFromLocalBackup`: reads the stored snapshot and
commits its records verbatim via `saveExpenses` — no per-record
validation.  A missing key, an unparseable value (or one without an
`expenses` array, which makes `saveExpenses` throw) yields `false` with
the state unchanged. -/
def restoreFromLocalBackup (now : Nat) (username : Str) (backupId : Str)
    (st : Storage) : Bool × Storage :=
  let key := str "backup-" ++ username ++ str "-" ++ backupId
  match getItem st key with
  | some (.backup b) =>
    match CSVDataManager.saveExpenses now username b.expenses st with
    | some st' => (true, st')
    | none => (false, st)
  | _ => (false, st)

/-- `BackupManager.setupAutoBackup`: persists the schedule.  When enabled
the source also arms a deferred timer (`scheduleNextBackup`); arming has
no storage footprint and the fire event is modelled by
`performScheduledBackup` below. -/
def setupAutoBackup (username : Str) (schedule : BackupSchedule)
    (st : Storage) : Storage :=
  setItem st (scheduleKey username) (.schedule schedule)

/-- `BackupManager.getBackupSchedule`. -/
def getBackupSchedule (username : Str) (st : Storage) : Option BackupSchedule :=
  match getItem st (scheduleKey username) with
  | some (.schedule s) => some s
  | _ => none

/-- `BackupManager.calculateNextBackup` (`setMonth(+1)` is modelled as 30
days; only its monotonicity matters to the claims). -/
def calculateNextBackup (now : Nat) : Frequency → Nat
  | .daily => now + dayMs
  | .weekly => now + 7 * dayMs
  | .monthly => now + 30 * dayMs

/-- `BackupManager.performScheduledBackup` — the body of the timer
callback.  `tLoad`, `tMeta`, `tStore`, `tSched` are the successive clock
reads (load-time validation, metadata stamp, local-store key, schedule
update).  Note: it never re-reads `schedule.enabled` before acting — it
backs up whenever the dataset is non-empty, and only afterwards re-reads
the schedule to update `lastBackup`/`nextBackup`. -/
def performScheduledBackup (tLoad tMeta tStore tSched : Nat) (username : Str)
    (st : Storage) : Bool × Storage :=
  match CSVDataManager.loadExpenses tLoad username st with
  | none => (false, st)
  | some lr =>
    if lr.expenses = [] then (false, st)
    else
      match createBackup tMeta tStore username lr.expenses st with
      | none => (false, st)
      | some (_, st1) =>
        let st2 := match getBackupSchedule username st1 with
          | some sch =>
            setupAutoBackup username
              { sch with
                lastBackup := some tSched
                nextBackup := some (calculateNextBackup tSched sch.frequency) } st1
          | none => st1
        (true, st2)

/-- `BackupManager.cleanupOldBackups` at time `now`: deletes, under the
owner key prefix, every backup whose `createdAt` is before
`now - retentionDays` days, and every value that fails to parse as a
backup (the source treats the resulting exception as corruption and
deletes the key). -/
def cleanupOldBackups (now : Nat) (username : Str) (retentionDays : Nat)
    (st : Storage) : Storage :=
  let cutoff : Int := (now : Int) - (retentionDays : Int) * (dayMs : Int)
  let keysToDelete := st.filterMap (fun kv =>
    if (bkPref username).isPrefixOf kv.1 then
      match kv.2 with
      | .backup b => if (b.metadata.createdAt : Int) < cutoff then some kv.1 else none
      | _ => some kv.1
    else none)
  keysToDelete.foldl removeItem st

end BackupManager

/-! ### Storage lemmas -/

theorem getItem_setItem_self (st : Storage) (k : Str) (v : StoredVal) :
    getItem (setItem st k v) k = some v := by
  rw [setItem]
  split
  · next h =>
    induction st with
    | nil => simp at h
    | cons kv rest ih =>
      simp only [List.any_cons, Bool.or_eq_true] at h
      by_cases hk : kv.1 == k
      · simp [getItem, List.find?, hk]
      · simp only [List.map_cons, if_neg hk]
        rw [getItem, List.find?]
        simp only [hk]
        rcases h with h1 | h2
        · exact absurd h1 hk
        · exact ih h2
  · next h =>
    rw [getItem, List.find?_append]
    have hnone : st.find? (fun kv => kv.1 == k) = none := by
      rw [List.find?_eq_none]
      intro x hx hpx
      exact h (List.any_eq_true.mpr ⟨x, hx, hpx⟩)
    simp [hnone, List.find?]

theorem getItem_map_replace {k k' : Str} (h : k' ≠ k) (v : StoredVal)
    (st : Storage) :
    getItem (st.map (fun kv => if kv.1 == k then (k, v) else kv)) k'
      = getItem st k' := by
  induction st with
  | nil => rfl
  | cons kv rest ih =>
    simp only [List.map_cons]
    rw [getItem, List.find?, getItem, List.find?]
    by_cases hk : kv.1 == k
    · have hkk : kv.1 = k := by simpa using hk
      have h1 : (k == k') = false := by simpa using fun he => h he.symm
      have h2 : (kv.1 == k') = false := by rw [hkk]; exact h1
      simp only [if_pos hk, h1, h2]
      exact ih
    · simp only [if_neg hk]
      by_cases hk' : kv.1 == k'
      · simp [hk']
      · simp only [hk']
        exact ih

theorem getItem_setItem_ne (st : Storage) {k k' : Str} (h : k' ≠ k)
    (v : StoredVal) : getItem (setItem st k v) k' = getItem st k' := by
  rw [setItem]
  split
  · exact getItem_map_replace h v st
  · rw [getItem, List.find?_append, getItem]
    have hone : List.find? (fun kv => kv.1 == k') [(k, v)] = none := by
      have hkf : (k == k') = false := by simpa using fun he => h he.symm
      simp [List.find?, hkf]
    rw [hone]
    cases List.find? (fun kv => kv.1 == k') st <;> rfl

namespace CSVDataManager

theorem storageKey_ne_metadataKey (u : Str) : storageKey u ≠ metadataKey u := by
  intro h
  rw [show storageKey u
      = 'c' :: 's' :: 'v' :: '-' :: 'p' :: (str "ak-kharcha-" ++ (jsToLower u ++ str "-expenses.csv"))
      from rfl] at h
  rw [show metadataKey u
      = 'c' :: 's' :: 'v' :: '-' :: 'm' :: (str "etadata-" ++ (str "pak-kharcha-" ++ (jsToLower u ++ str "-expenses.csv")))
      from rfl] at h
  simp at h

/-- After a successful save, the dataset key holds exactly the encoded
content of the saved records. -/
theorem saveExpenses_storage {now : Nat} {u : Str} {es : List Expense}
    {st st' : Storage} (h : saveExpenses now u es st = some st') :
    getItem st' (storageKey u) = some (.text (csvContent now u es)) := by
  rw [saveExpenses] at h
  split at h
  · exact absurd h (by simp)
  · simp only [Option.some_inj] at h
    subst h
    rw [getItem_setItem_ne _ (storageKey_ne_metadataKey u) _]
    exact getItem_setItem_self _ _ _

theorem saveExpenses_some {now : Nat} {u : Str} (hu : u ≠ [])
    (es : List Expense) (st : Storage) :
    ∃ st', saveExpenses now u es st = some st' := by
  rw [saveExpenses, if_neg hu]
  exact ⟨_, rfl⟩

end CSVDataManager

/-! ### Claim C1 -/

/-- A record that passes every field validator but whose description
begins with a space. -/
def c1rec : Expense :=
  { id := str "x1", amount := some 500, category := str "Food & Groceries",
    description := str " Lunch at cafe", date := str "2024-01-15" }

/-- A record with a comma, quotes and no edge whitespace in the
description. -/
def c1good : Expense :=
  { id := str "a1", amount := some 2500, category := str "Food & Groceries",
    description := str "Lunch, \"deluxe\" set", date := str "2024-01-15" }

def c1now : Nat := 100000000000000

/-- C1, counterexample to the claim as stated: `c1rec` passes all the
field validators (leading whitespace in the description is allowed), yet
`decode(encode([c1rec]))` returns a different record — the decoder trims
every parsed field, so the leading space of the description is lost. -/
theorem C1_counterexample :
    (CSVDataManager.validateExpense c1now c1rec).1 = true ∧
    (CSVDataManager.decodeCSV c1now
        (CSVDataManager.csvContent c1now (str "demo") [c1rec])).1 ≠ [c1rec] := by
  decide

/-- C1 witness: a concrete dataset whose description holds a comma and
quotes survives the round trip. -/
theorem C1_roundtrip_witness :
    (CSVDataManager.decodeCSV c1now
        (CSVDataManager.csvContent c1now (str "demo") [c1good])).1 = [c1good] :=
  CSVDataManager.decode_encode c1now (str "demo") [c1good] (by decide) (by decide)
    (by decide)

/-! ### Claim C4 -/

/-- C4 (amended): the import/load path and the backup-restore path use
different validators.  For any record whose date parses and lies strictly
after `now` (and whose other fields satisfy the weaker backup checks),
`CSVDataManager.validateExpense` rejects it with a validation error while
`BackupManager.validateExpense` accepts it — the backup-restore validator
has no future-date check. -/
theorem C4_validator_mismatch (now ts : Nat) (e : Expense)
    (hdate : jsParseDate e.date = some ts) (hfut : now < ts)
    (hid : e.id ≠ []) (hcat : e.category ≠ []) (hdesc : e.description ≠ [])
    (hamt : (match e.amount with
             | none => true
             | some v => decide (0 < v)) = true) :
    (CSVDataManager.validateExpense now e).1 = false ∧
    BackupManager.validateExpense e = none := by
  have hdne : e.date ≠ [] := by
    intro h
    rw [h] at hdate
    exact Option.noConfusion hdate
  have hA : (match e.amount with
             | none => false
             | some v => (decide (v ≤ 0) : Bool)) = false := by
    cases ha : e.amount with
    | none => rfl
    | some v =>
      rw [ha] at hamt
      simp only [decide_eq_true_eq] at hamt
      simp only [decide_eq_false_iff_not]
      omega
  constructor
  · simp only [CSVDataManager.validateExpense, hdate, if_neg hdne]
    rw [if_pos hfut]
    simp
  · rw [BackupManager.validateExpense, if_neg hid]
    rw [if_neg (by simp only [hA]; exact Bool.false_ne_true)]
    rw [if_neg hcat, if_neg hdesc]
    rw [if_neg (by simp [hdne, hdate])]

/-- A healthy record dated 2031, in a world where `now` is in 2024. -/
def c4rec : Expense :=
  { id := str "f1", amount := some 100, category := str "Food & Groceries",
    description := str "Future lunch", date := str "2031-01-01" }

def c4now : Nat := dateTs 2024 1 15

/-- C4, counterexample to the claim as stated: the future-dated record
`c4rec` is rejected by the import-path validator but accepted by the
backup-restore validator — the two paths do not apply the same
validator. -/
theorem C4_counterexample :
    jsParseDate c4rec.date = some (dateTs 2031 1 1) ∧ c4now < dateTs 2031 1 1 ∧
    (CSVDataManager.validateExpense c4now c4rec).1 = false ∧
    BackupManager.validateExpense c4rec = none := by
  decide

/-- C4 witness for the amended theorem. -/
theorem C4_witness :
    (CSVDataManager.validateExpense c4now c4rec).1 = false ∧
    BackupManager.validateExpense c4rec = none :=
  C4_validator_mismatch c4now (dateTs 2031 1 1) c4rec (by decide) (by decide)
    (by decide) (by decide) (by decide) (by decide)

/-! ### Claim C9 -/

/-- C9: restoring a locally stored snapshot commits the snapshot records
verbatim — no per-record validation — and returns `true`; afterwards the
owner dataset key holds exactly the encoding of the snapshot records. -/
theorem C9_local_restore_verbatim (now : Nat) (username backupId : Str)
    (st : Storage) (b : BackupFile) (hu : username ≠ [])
    (hget : getItem st (str "backup-" ++ username ++ str "-" ++ backupId)
      = some (.backup b)) :
    (BackupManager.restoreFromLocalBackup now username backupId st).1 = true ∧
    getItem (BackupManager.restoreFromLocalBackup now username backupId st).2
        (CSVDataManager.storageKey username)
      = some (.text (CSVDataManager.csvContent now username b.expenses)) := by
  obtain ⟨st', hsave⟩ := @CSVDataManager.saveExpenses_some now _ hu b.expenses st
  rw [BackupManager.restoreFromLocalBackup]
  simp only [hget, hsave]
  exact ⟨trivial, CSVDataManager.saveExpenses_storage hsave⟩

/-- A record the field validators reject (negative amount). -/
def c9rec : Expense :=
  { id := str "b1", amount := some (-5), category := str "Food & Groceries",
    description := str "Bad row", date := str "2024-01-01" }

def c9backup : BackupFile :=
  { metadata :=
    { version := str "1.0", username := str "u", createdAt := 123,
      expenseCount := 1, totalAmount := some (-5),
      dateRange := { earliest := str "2024-01-01", latest := str "2024-01-01" },
      categories := [str "Food & Groceries"], checksum := str "0" }
    expenses := [c9rec]
    format := str "pak-kharcha-backup" }

def c9st : Storage := [(str "backup-u-123", .backup c9backup)]

/-- C9 witness: a snapshot holding an invalid record (negative amount) is
still restored verbatim. -/
theorem C9_witness :
    (BackupManager.restoreFromLocalBackup 7 (str "u") (str "123") c9st).1 = true ∧
    getItem (BackupManager.restoreFromLocalBackup 7 (str "u") (str "123") c9st).2
        (CSVDataManager.storageKey (str "u"))
      = some (.text (CSVDataManager.csvContent 7 (str "u") c9backup.expenses)) :=
  C9_local_restore_verbatim 7 (str "u") (str "123") c9st c9backup (by decide)
    (by decide)

/-! ### Claim C5 -/

/-- C5: a checksum mismatch never blocks loading or restoring.  Loading
returns the same records whatever metadata (hence whatever stored
checksum) sits at the metadata key — only the warning list can differ —
and restoring returns the same success flag, restored count, errors and
final storage whatever checksum the backup metadata carries (only the
echoed metadata in the result differs). -/
theorem C5_checksum_warn_only (now : Nat) (username : Str) (st : Storage)
    (m1 m2 : CSVMeta) (name : Str) (md : BackupMetadata)
    (exps : List Expense) (c1 c2 : Str) :
    ((CSVDataManager.loadExpenses now username
        (setItem st (CSVDataManager.metadataKey username) (.meta m1))).map
        (fun r => r.expenses)
      = (CSVDataManager.loadExpenses now username
        (setItem st (CSVDataManager.metadataKey username) (.meta m2))).map
        (fun r => r.expenses)) ∧
    ((BackupManager.restoreFromBackup now username
        ⟨name, .json ⟨some { md with checksum := c1 }, some exps,
          str "pak-kharcha-backup"⟩⟩ st).1.success
      = (BackupManager.restoreFromBackup now username
        ⟨name, .json ⟨some { md with checksum := c2 }, some exps,
          str "pak-kharcha-backup"⟩⟩ st).1.success) ∧
    ((BackupManager.restoreFromBackup now username
        ⟨name, .json ⟨some { md with checksum := c1 }, some exps,
          str "pak-kharcha-backup"⟩⟩ st).1.restoredCount
      = (BackupManager.restoreFromBackup now username
        ⟨name, .json ⟨some { md with checksum := c2 }, some exps,
          str "pak-kharcha-backup"⟩⟩ st).1.restoredCount) ∧
    ((BackupManager.restoreFromBackup now username
        ⟨name, .json ⟨some { md with checksum := c1 }, some exps,
          str "pak-kharcha-backup"⟩⟩ st).2
      = (BackupManager.restoreFromBackup now username
        ⟨name, .json ⟨some { md with checksum := c2 }, some exps,
          str "pak-kharcha-backup"⟩⟩ st).2) := by
  refine ⟨?_, ?_⟩
  · by_cases hu : username = []
    · simp [CSVDataManager.loadExpenses, hu]
    · have hne := CSVDataManager.storageKey_ne_metadataKey username
      rw [CSVDataManager.loadExpenses, CSVDataManager.loadExpenses]
      simp only [if_neg hu]
      rw [getItem_setItem_ne st hne, getItem_setItem_ne st hne]
      cases getItem st (CSVDataManager.storageKey username) with
      | none => rfl
      | some v => cases v <;> simp
  · rw [BackupManager.restoreFromBackup, BackupManager.restoreFromBackup]
    split
    · exact ⟨rfl, rfl, rfl⟩
    · simp only []
      split
      · exact ⟨rfl, rfl, rfl⟩
      · split
        · exact ⟨rfl, rfl, rfl⟩
        · cases CSVDataManager.saveExpenses now username
            (exps.filter (fun e => (BackupManager.validateExpense e).isNone)) st <;>
            exact ⟨rfl, rfl, rfl⟩

/-! ### Claim C2 -/

theorem enum_filterMap_length (now : Nat) (exps : List Expense) :
    ∀ n, ((List.enumFrom n exps).filterMap (fun p =>
      (BackupManager.validateExpense p.2).map (fun msg =>
        str "Expense " ++ natToChars (p.1 + 1) ++ str ": " ++ msg))).length
      = (exps.filter (fun e => (BackupManager.validateExpense e).isSome)).length := by
  induction exps with
  | nil => intro n; rfl
  | cons e rest ih =>
    intro n
    rw [List.enumFrom_cons, List.filterMap_cons, List.filter_cons]
    cases hv : BackupManager.validateExpense e with
    | none => simpa [hv] using ih (n + 1)
    | some m => simpa [hv] using ih (n + 1)

/-- C2: restoring a backup whose records all fail validation returns
`success = false` with `restoredCount = 0` and leaves storage untouched;
when at least one record passes, exactly the passing subset is committed
via `saveExpenses` and one error per failing record is returned. -/
theorem C2_restore_empty_and_partial (now : Nat) (username name : Str)
    (md : BackupMetadata) (exps : List Expense) (st : Storage)
    (hname : jsEndsWith (jsToLower name) (str ".json") = true)
    (hu : username ≠ []) :
    ((exps.filter (fun e => (BackupManager.validateExpense e).isNone) = [] →
      (BackupManager.restoreFromBackup now username
        ⟨name, .json ⟨some md, some exps, str "pak-kharcha-backup"⟩⟩ st).1.success
          = false ∧
      (BackupManager.restoreFromBackup now username
        ⟨name, .json ⟨some md, some exps, str "pak-kharcha-backup"⟩⟩ st).1.restoredCount
          = 0 ∧
      (BackupManager.restoreFromBackup now username
        ⟨name, .json ⟨some md, some exps, str "pak-kharcha-backup"⟩⟩ st).2 = st)) ∧
    (exps.filter (fun e => (BackupManager.validateExpense e).isNone) ≠ [] →
      (BackupManager.restoreFromBackup now username
        ⟨name, .json ⟨some md, some exps, str "pak-kharcha-backup"⟩⟩ st).1.success
          = true ∧
      (BackupManager.restoreFromBackup now username
        ⟨name, .json ⟨some md, some exps, str "pak-kharcha-backup"⟩⟩ st).1.restoredCount
          = (exps.filter (fun e => (BackupManager.validateExpense e).isNone)).length ∧
      CSVDataManager.saveExpenses now username
          (exps.filter (fun e => (BackupManager.validateExpense e).isNone)) st
        = some (BackupManager.restoreFromBackup now username
            ⟨name, .json ⟨some md, some exps, str "pak-kharcha-backup"⟩⟩ st).2 ∧
      (BackupManager.restoreFromBackup now username
        ⟨name, .json ⟨some md, some exps, str "pak-kharcha-backup"⟩⟩ st).1.errors.length
        = (exps.filter (fun e => (BackupManager.validateExpense e).isSome)).length) := by
  rw [BackupManager.restoreFromBackup]
  rw [hname]
  simp only [Bool.not_true, Bool.false_eq_true, if_false, ne_eq, not_true_eq_false,
    ite_false]
  constructor
  · intro hempty
    rw [if_pos hempty]
    exact ⟨rfl, rfl, rfl⟩
  · intro hnonempty
    rw [if_neg hnonempty]
    obtain ⟨st', hsave⟩ := @CSVDataManager.saveExpenses_some now _ hu
      (exps.filter (fun e => (BackupManager.validateExpense e).isNone)) st
    rw [hsave]
    refine ⟨rfl, rfl, rfl, ?_⟩
    rw [show List.enum exps = List.enumFrom 0 exps from rfl]
    exact enum_filterMap_length now exps 0

def c2good : Expense :=
  { id := str "g1", amount := some 100, category := str "Food & Groceries",
    description := str "Okay lunch", date := str "2024-01-01" }

def c2bad : Expense :=
  { id := [], amount := some 100, category := str "Food & Groceries",
    description := str "No id", date := str "2024-01-01" }

def c2md : BackupMetadata :=
  { version := str "1.0", username := str "u", createdAt := 1,
    expenseCount := 2, totalAmount := some 200,
    dateRange := { earliest := str "2024-01-01", latest := str "2024-01-01" },
    categories := [str "Food & Groceries"], checksum := str "0" }

/-- C2 witness at a concrete two-record backup (one valid, one with a
missing id). -/
theorem C2_witness :
    ((([c2good, c2bad].filter
        (fun e => (BackupManager.validateExpense e).isNone) = [] →
      (BackupManager.restoreFromBackup 5 (str "u")
        ⟨str "b.json", .json ⟨some c2md, some [c2good, c2bad],
          str "pak-kharcha-backup"⟩⟩ []).1.success = false ∧
      (BackupManager.restoreFromBackup 5 (str "u")
        ⟨str "b.json", .json ⟨some c2md, some [c2good, c2bad],
          str "pak-kharcha-backup"⟩⟩ []).1.restoredCount = 0 ∧
      (BackupManager.restoreFromBackup 5 (str "u")
        ⟨str "b.json", .json ⟨some c2md, some [c2good, c2bad],
          str "pak-kharcha-backup"⟩⟩ []).2 = [])) ∧
    ([c2good, c2bad].filter
        (fun e => (BackupManager.validateExpense e).isNone) ≠ [] →
      (BackupManager.restoreFromBackup 5 (str "u")
        ⟨str "b.json", .json ⟨some c2md, some [c2good, c2bad],
          str "pak-kharcha-backup"⟩⟩ []).1.success = true ∧
      (BackupManager.restoreFromBackup 5 (str "u")
        ⟨str "b.json", .json ⟨some c2md, some [c2good, c2bad],
          str "pak-kharcha-backup"⟩⟩ []).1.restoredCount
        = ([c2good, c2bad].filter
            (fun e => (BackupManager.validateExpense e).isNone)).length ∧
      CSVDataManager.saveExpenses 5 (str "u")
          ([c2good, c2bad].filter
            (fun e => (BackupManager.validateExpense e).isNone)) []
        = some (BackupManager.restoreFromBackup 5 (str "u")
            ⟨str "b.json", .json ⟨some c2md, some [c2good, c2bad],
              str "pak-kharcha-backup"⟩⟩ []).2 ∧
      (BackupManager.restoreFromBackup 5 (str "u")
        ⟨str "b.json", .json ⟨some c2md, some [c2good, c2bad],
          str "pak-kharcha-backup"⟩⟩ []).1.errors.length
        = ([c2good, c2bad].filter
            (fun e => (BackupManager.validateExpense e).isSome)).length)) :=
  C2_restore_empty_and_partial 5 (str "u") (str "b.json") c2md [c2good, c2bad] []
    (by decide) (by decide)

/-! ### Claim C7 -/

/-- C7 (amended): the scheduled-backup callback does not re-read the
schedule before acting.  Even when the stored schedule is disabled, the
fire still performs the backup whenever the dataset is non-empty (the
schedule is re-read only afterwards, to update `lastBackup`/`nextBackup`). -/
theorem C7_fire_ignores_disabled (tLoad tMeta tStore tSched : Nat)
    (username : Str) (st : Storage) (sch : BackupSchedule)
    (lr : CSVDataManager.LoadResult)
    (hsch : BackupManager.getBackupSchedule username st = some sch)
    (hdis : sch.enabled = false)
    (hload : CSVDataManager.loadExpenses tLoad username st = some lr)
    (hne : lr.expenses ≠ []) :
    (BackupManager.performScheduledBackup tLoad tMeta tStore tSched username st).1
      = true := by
  rw [BackupManager.performScheduledBackup, hload]
  simp only [if_neg hne]
  rw [BackupManager.createBackup, if_neg hne]

def c7rec : Expense :=
  { id := str "s1", amount := some 900, category := str "Utilities",
    description := str "Electric bill", date := str "2024-02-01" }

def c7sch : BackupSchedule :=
  { enabled := false, frequency := .daily, lastBackup := none,
    nextBackup := none, retentionDays := 30 }

def c7st : Storage :=
  [(CSVDataManager.storageKey (str "u"),
    .text (CSVDataManager.csvContent 1000 (str "u") [c7rec])),
   (BackupManager.scheduleKey (str "u"), .schedule c7sch)]

/-- C7, counterexample to the claim as stated: with the stored schedule
disabled and a non-empty dataset, the timer fire is NOT a no-op — it
reports success and a fresh snapshot appears in storage. -/
theorem C7_counterexample :
    BackupManager.getBackupSchedule (str "u") c7st = some c7sch ∧
    c7sch.enabled = false ∧
    (BackupManager.performScheduledBackup c1now c1now c1now c1now (str "u")
      c7st).1 = true ∧
    getItem (BackupManager.performScheduledBackup c1now c1now c1now c1now
        (str "u") c7st).2
        (BackupManager.bkPref (str "u") ++ natToChars c1now) ≠ none := by
  decide

/-- C7 witness for the amended theorem, at the same concrete state. -/
theorem C7_witness :
    (BackupManager.performScheduledBackup c1now c1now c1now c1now (str "u")
      c7st).1 = true :=
  C7_fire_ignores_disabled c1now c1now c1now c1now (str "u") c7st c7sch
    { expenses := [c7rec], warnings := [] } (by decide) (by decide) (by decide)
    (by decide)

/-! ### Claim C6 -/

def c6rec : Expense :=
  { id := str "m1", amount := some 10, category := str "Housing",
    description := str "Rent part", date := str "2024-01-02" }

def c6meta (t : Nat) : BackupMetadata :=
  { version := str "1.0", username := str "u", createdAt := t,
    expenseCount := 1, totalAmount := some 10,
    dateRange := { earliest := str "2024-01-02", latest := str "2024-01-02" },
    categories := [str "Housing"], checksum := str "0" }

def c6b (t : Nat) : BackupFile :=
  { metadata := c6meta t, expenses := [c6rec], format := str "pak-kharcha-backup" }

/-- Five snapshots whose storage keys carry the `Date.now()` read taken in
`storeLocalBackup` (1 ms after the `new Date()` read that stamped
`metadata.createdAt`, as happens whenever a millisecond elapses between
the two reads in `createBackup`). -/
def c6st : Storage :=
  [(BackupManager.bkPref (str "u") ++ natToChars 1001, .backup (c6b 1000)),
   (BackupManager.bkPref (str "u") ++ natToChars 2001, .backup (c6b 2000)),
   (BackupManager.bkPref (str "u") ++ natToChars 3001, .backup (c6b 3000)),
   (BackupManager.bkPref (str "u") ++ natToChars 4001, .backup (c6b 4000)),
   (BackupManager.bkPref (str "u") ++ natToChars 5001, .backup (c6b 5000))]

/-- C6 at the failing input: storing a sixth snapshot prunes nothing.
`storeLocalBackup` rebuilds the key to delete from `metadata.createdAt`
(`backup-u-1000`), but the snapshot is stored under the key derived from
the later `Date.now()` read (`backup-u-1001`), so the removal misses and
six snapshots remain — more than the five the retention policy is meant
to keep. -/
theorem C6_prune_misses :
    ((BackupManager.storeLocalBackup 6001 (str "u") (c6b 6000) c6st).filterMap
      (fun kv =>
        if (BackupManager.bkPref (str "u")).isPrefixOf kv.1 then some kv.1
        else none)).length = 6 := by
  decide

/-! ### Claim C10 -/

/-- C10: a successful import fully replaces the owner dataset with the
accepted rows of the file.  The import result and, on success, the stored
dataset payload are identical for any two prior storage states — nothing
previously persisted is retained or merged. -/
theorem C10_import_replaces (now : Nat) (username : Str)
    (file : CSVDataManager.CsvFile) (st1 st2 : Storage) :
    (CSVDataManager.importUserData now username file st1).1
      = (CSVDataManager.importUserData now username file st2).1 ∧
    ((CSVDataManager.importUserData now username file st1).1.success = true →
      getItem (CSVDataManager.importUserData now username file st1).2
          (CSVDataManager.storageKey username)
        = getItem (CSVDataManager.importUserData now username file st2).2
          (CSVDataManager.storageKey username)) := by
  rw [CSVDataManager.importUserData, CSVDataManager.importUserData]
  dsimp only
  split
  · exact ⟨rfl, by intro h; simp at h⟩
  · split
    · exact ⟨rfl, by intro h; simp at h⟩
    · split
      · exact ⟨rfl, by intro h; simp at h⟩
      · split
        · exact ⟨rfl, by intro h; simp at h⟩
        · split
          · exact ⟨rfl, by intro h; simp at h⟩
          · by_cases hu : username = []
            · rw [show ∀ es st, CSVDataManager.saveExpenses now username es st = none
                  from fun es st => by rw [CSVDataManager.saveExpenses, if_pos hu]]
              rw [show ∀ es st, CSVDataManager.saveExpenses now username es st = none
                  from fun es st => by rw [CSVDataManager.saveExpenses, if_pos hu]]
              exact ⟨rfl, by intro h; simp at h⟩
            · obtain ⟨st1', hs1⟩ := @CSVDataManager.saveExpenses_some now _ hu
                (CSVDataManager.importLoop now
                  ((splitNl file.content).drop
                    (CSVDataManager.findImportStart (splitNl file.content)))
                  (CSVDataManager.findImportStart (splitNl file.content))
                  { acc := [], imported := 0, skipped := 0, errors := [] }).acc st1
              obtain ⟨st2', hs2⟩ := @CSVDataManager.saveExpenses_some now _ hu
                (CSVDataManager.importLoop now
                  ((splitNl file.content).drop
                    (CSVDataManager.findImportStart (splitNl file.content)))
                  (CSVDataManager.findImportStart (splitNl file.content))
                  { acc := [], imported := 0, skipped := 0, errors := [] }).acc st2
              rw [hs1, hs2]
              refine ⟨rfl, fun _ => ?_⟩
              show getItem st1' (CSVDataManager.storageKey username)
                = getItem st2' (CSVDataManager.storageKey username)
              rw [CSVDataManager.saveExpenses_storage hs1,
                  CSVDataManager.saveExpenses_storage hs2]

/-! ### Claim C8 -/

/-- The deletion test `cleanupOldBackups` applies to a stored value: a
parseable backup is deleted when its `createdAt` predates the cutoff; any
other value throws on field access and is deleted as corrupt. -/
def staleOrCorrupt (now retentionDays : Nat) : StoredVal → Bool
  | .backup b =>
    decide ((b.metadata.createdAt : Int)
      < (now : Int) - (retentionDays : Int) * (dayMs : Int))
  | _ => true

theorem foldl_removeItem (ks : List Str) (st : Storage) :
    ks.foldl removeItem st = st.filter (fun kv => !(ks.contains kv.1)) := by
  induction ks generalizing st with
  | nil => simp
  | cons k ks ih =>
    rw [List.foldl_cons, ih, removeItem, List.filter_filter]
    apply List.filter_congr
    intro kv _
    by_cases hk : kv.1 = k
    · simp [hk]
    · simp [hk, List.contains_cons, Ne.symm hk]

theorem cleanup_f_inv {username : Str} {now retentionDays : Nat}
    {kv : Str × StoredVal} {x : Str}
    (h : (if (BackupManager.bkPref username).isPrefixOf kv.1 then
        match kv.2 with
        | .backup b =>
          if (b.metadata.createdAt : Int)
              < (now : Int) - (retentionDays : Int) * (dayMs : Int) then
            some kv.1
          else none
        | _ => some kv.1
      else none) = some x) :
    x = kv.1 ∧ (BackupManager.bkPref username).isPrefixOf kv.1 = true ∧
      staleOrCorrupt now retentionDays kv.2 = true := by
  by_cases hp : (BackupManager.bkPref username).isPrefixOf kv.1
  · rw [if_pos hp] at h
    refine ⟨?_, hp, ?_⟩ <;>
      (cases hv : kv.2 <;> rw [hv] at h <;> simp_all [staleOrCorrupt])
  · rw [if_neg hp] at h
    exact absurd h (by simp)

/-- C8 (amended): `cleanupOldBackups` removes exactly the entries under
the key prefix `backup-<owner>-` that are stale (createdAt before
`now - retentionDays` days) or fail to parse as a backup; every other
entry — in particular everything outside that prefix — is untouched.
With `retentionDays = 0` that is every prefixed snapshot created strictly
before `now`; with a huge `retentionDays` no recent parseable snapshot is
removed.  Note the prefix also covers owners whose name extends
`<owner>-`, so such owners' snapshots are NOT protected (see the
counterexample). -/
theorem C8_cleanup_characterization (now : Nat) (username : Str)
    (retentionDays : Nat) (st : Storage)
    (hnd : (st.map Prod.fst).Nodup) :
    BackupManager.cleanupOldBackups now username retentionDays st
      = st.filter (fun kv =>
          !((BackupManager.bkPref username).isPrefixOf kv.1 &&
            staleOrCorrupt now retentionDays kv.2)) := by
  rw [BackupManager.cleanupOldBackups]
  rw [foldl_removeItem]
  apply List.filter_congr
  intro kv hkv
  congr 1
  by_cases hrhs : (BackupManager.bkPref username).isPrefixOf kv.1 = true ∧
      staleOrCorrupt now retentionDays kv.2 = true
  · rw [hrhs.1, hrhs.2]
    simp only [Bool.and_self]
    rw [List.contains_eq_any_beq, List.any_eq_true]
    refine ⟨kv.1, ?_, by simp⟩
    apply List.mem_filterMap.mpr
    refine ⟨kv, hkv, ?_⟩
    rw [if_pos hrhs.1]
    have hs := hrhs.2
    cases hv : kv.2 with
    | backup b =>
      rw [hv] at hs
      simp only [staleOrCorrupt, decide_eq_true_eq] at hs
      simp [hs]
    | text s => rfl
    | schedule s => rfl
    | meta m => rfl
  · have hrhsF : ((BackupManager.bkPref username).isPrefixOf kv.1 &&
        staleOrCorrupt now retentionDays kv.2) = false := by
      cases hp : (BackupManager.bkPref username).isPrefixOf kv.1 with
      | false => simp
      | true =>
        cases hsC : staleOrCorrupt now retentionDays kv.2 with
        | false => simp
        | true => exact absurd ⟨hp, hsC⟩ hrhs
    rw [hrhsF]
    apply Bool.eq_false_iff.mpr
    intro hcont
    rw [List.contains_eq_any_beq, List.any_eq_true] at hcont
    obtain ⟨x, hx, hbeq⟩ := hcont
    obtain ⟨kv', hkv', hfkv'⟩ := List.mem_filterMap.mp hx
    obtain ⟨hx1, hpre, hstale⟩ := cleanup_f_inv hfkv'
    have hxkv : x = kv.1 := by
      have hb : kv.1 = x := by simpa using hbeq
      exact hb.symm
    have hkeys : kv'.1 = kv.1 := by rw [← hx1, hxkv]
    have : kv' = kv :=
      List.inj_on_of_nodup_map hnd hkv' hkv hkeys
    subst this
    exact hrhs ⟨hpre, hstale⟩

def c8other : BackupFile :=
  { metadata :=
    { version := str "1.0", username := str "a-b", createdAt := 0,
      expenseCount := 1, totalAmount := some 10,
      dateRange := { earliest := str "2024-01-02", latest := str "2024-01-02" },
      categories := [str "Housing"], checksum := str "0" }
    expenses := [c6rec]
    format := str "pak-kharcha-backup" }

/-- C8, counterexample to the claim as stated: running cleanup for owner
`a` with `retentionDays = 0` deletes a snapshot belonging to the distinct
owner `a-b`, because the key prefix `backup-a-` also matches
`backup-a-b-…` — snapshots of other owners CAN be touched. -/
theorem C8_counterexample :
    BackupManager.cleanupOldBackups dayMs (str "a") 0
      [(BackupManager.bkPref (str "a-b") ++ natToChars 17, .backup c8other)]
    = [] := by
  decide

/-- C8 witness for the characterization, at a two-entry store: a stale
snapshot under the owner prefix is removed, an entry of another owner
(not extending the prefix) is kept. -/
theorem C8_witness :
    BackupManager.cleanupOldBackups dayMs (str "u") 0
      [(BackupManager.bkPref (str "u") ++ natToChars 17, .backup (c6b 0)),
       (BackupManager.bkPref (str "w") ++ natToChars 17, .backup (c6b 0))]
    = [(BackupManager.bkPref (str "u") ++ natToChars 17, .backup (c6b 0)),
       (BackupManager.bkPref (str "w") ++ natToChars 17, .backup (c6b 0))].filter
        (fun kv => !((BackupManager.bkPref (str "u")).isPrefixOf kv.1 &&
          staleOrCorrupt dayMs 0 kv.2)) :=
  C8_cleanup_characterization dayMs (str "u") 0 _ (by decide)

/-! ### Claim C3: specification-side counters -/

namespace CSVDataManager

/-- A line the import row loop processes (non-blank, not a comment). -/
def isProcLine (l : Str) : Bool :=
  !(jsTrim l == []) && !((jsTrim l).head? == some '#')

theorem isProcLine_iff (l : Str) :
    isProcLine l = true ↔ (jsTrim l ≠ [] ∧ (jsTrim l).head? ≠ some '#') := by
  simp [isProcLine]

/-- The parsed candidate of an indexed line. -/
def rowExp (now : Nat) (p : Nat × Str) : Option Expense :=
  (csvRowToExpense now (jsTrim p.2) (p.1 + 1)).expense

/-- `N`: the number of processed data rows. -/
def specN (ps : List (Nat × Str)) : Nat :=
  (ps.filter (fun p => isProcLine p.2)).length

/-- `M`: the number of processed rows that fail parsing/validation. -/
def specM (now : Nat) (ps : List (Nat × Str)) : Nat :=
  (ps.filter (fun p => isProcLine p.2 && (rowExp now p).isNone)).length

/-- `K`: the number of valid rows that duplicate an already-accepted row
(id match, or exact amount/category/description/date match), scanning
left to right with accepted prefix `acc`. -/
def specK (now : Nat) : List Expense → List (Nat × Str) → Nat
  | _, [] => 0
  | acc, p :: rest =>
    if isProcLine p.2 then
      match rowExp now p with
      | some e =>
        if isDuplicate acc e then 1 + specK now acc rest
        else specK now (acc ++ [e]) rest
      | none => specK now acc rest
    else specK now acc rest

/-- The number of accepted (valid, non-duplicate) rows. -/
def specImp (now : Nat) : List Expense → List (Nat × Str) → Nat
  | _, [] => 0
  | acc, p :: rest =>
    if isProcLine p.2 then
      match rowExp now p with
      | some e =>
        if isDuplicate acc e then specImp now acc rest
        else 1 + specImp now (acc ++ [e]) rest
      | none => specImp now acc rest
    else specImp now acc rest

/-- The accepted rows themselves, in order. -/
def specAccepted (now : Nat) : List Expense → List (Nat × Str) → List Expense
  | acc, [] => acc
  | acc, p :: rest =>
    if isProcLine p.2 then
      match rowExp now p with
      | some e =>
        if isDuplicate acc e then specAccepted now acc rest
        else specAccepted now (acc ++ [e]) rest
      | none => specAccepted now acc rest
    else specAccepted now acc rest

/-- Every row is returned either as a valid record with an empty error
list, or as no record with a non-empty error list. -/
theorem csvRowToExpense_shape (now : Nat) (row : Str) (i : Nat) :
    ((csvRowToExpense now row i).expense.isSome ∧
      (csvRowToExpense now row i).errors = []) ∨
    ((csvRowToExpense now row i).expense = none ∧
      (csvRowToExpense now row i).errors ≠ []) := by
  rw [csvRowToExpense]
  split
  · dsimp only
    split
    · split
      · exact Or.inl ⟨rfl, rfl⟩
      · exact Or.inr ⟨rfl, by simp⟩
    · split
      · exact Or.inl ⟨rfl, rfl⟩
      · exact Or.inr ⟨rfl, by simp⟩
  · exact Or.inr ⟨rfl, by simp⟩

end CSVDataManager

namespace CSVDataManager

/-- The import row loop computed against the specification counters: from
any starting state, the accepted list extends by the spec-accepted rows,
`imported` grows by the accepted count, `skipped` grows by the invalid
count plus the duplicate count, and at least one error is recorded per
skipped row. -/
theorem importLoop_spec (now : Nat) (rows : List Str) :
    ∀ (i : Nat) (s : ImportLoopState),
    (importLoop now rows i s).acc
        = specAccepted now s.acc (List.enumFrom i rows) ∧
    (importLoop now rows i s).imported
        = s.imported + specImp now s.acc (List.enumFrom i rows) ∧
    (importLoop now rows i s).skipped
        = s.skipped + specM now (List.enumFrom i rows)
          + specK now s.acc (List.enumFrom i rows) ∧
    s.errors.length + specM now (List.enumFrom i rows)
          + specK now s.acc (List.enumFrom i rows)
        ≤ (importLoop now rows i s).errors.length := by
  induction rows with
  | nil =>
    intro i s
    simp [importLoop, specAccepted, specImp, specM, specK]
  | cons l rest ih =>
    intro i s
    rw [importLoop, List.enumFrom_cons]
    by_cases hp : jsTrim l ≠ [] ∧ (jsTrim l).head? ≠ some '#'
    · rw [if_pos hp]
      have hproc : isProcLine l = true := (isProcLine_iff l).mpr hp
      have hprocP : isProcLine ((i, l) : Nat × Str).2 = true := hproc
      dsimp only
      cases hr : (csvRowToExpense now (jsTrim l) (i + 1)).expense with
      | some e =>
        have hre : rowExp now (i, l) = some e := hr
        dsimp only
        have hM : specM now ((i, l) :: List.enumFrom (i + 1) rest)
            = specM now (List.enumFrom (i + 1) rest) := by
          simp [specM, List.filter_cons, hre]
        by_cases hd : isDuplicate s.acc e
        · rw [if_pos hd]
          have hK : specK now s.acc ((i, l) :: List.enumFrom (i + 1) rest)
              = 1 + specK now s.acc (List.enumFrom (i + 1) rest) := by
            rw [specK]
            simp [hprocP, hre, hd]
          have hImp : specImp now s.acc ((i, l) :: List.enumFrom (i + 1) rest)
              = specImp now s.acc (List.enumFrom (i + 1) rest) := by
            rw [specImp]
            simp [hprocP, hre, hd]
          have hAcc : specAccepted now s.acc ((i, l) :: List.enumFrom (i + 1) rest)
              = specAccepted now s.acc (List.enumFrom (i + 1) rest) := by
            rw [specAccepted]
            simp [hprocP, hre, hd]
          obtain ⟨ih1, ih2, ih3, ih4⟩ := ih (i + 1)
            { acc := s.acc, imported := s.imported, skipped := s.skipped + 1,
              errors := s.errors ++
                [str "Row " ++ natToChars (i + 1) ++ str ": Duplicate expense skipped"] }
          dsimp only at ih1 ih2 ih3 ih4
          rw [hM, hK, hImp, hAcc]
          refine ⟨ih1, ih2, by rw [ih3]; omega, ?_⟩
          simp only [List.length_append, List.length_cons, List.length_nil] at ih4
          omega
        · rw [if_neg hd]
          have hK : specK now s.acc ((i, l) :: List.enumFrom (i + 1) rest)
              = specK now (s.acc ++ [e]) (List.enumFrom (i + 1) rest) := by
            rw [specK]
            simp [hprocP, hre, hd]
          have hImp : specImp now s.acc ((i, l) :: List.enumFrom (i + 1) rest)
              = 1 + specImp now (s.acc ++ [e]) (List.enumFrom (i + 1) rest) := by
            rw [specImp]
            simp [hprocP, hre, hd]
          have hAcc : specAccepted now s.acc ((i, l) :: List.enumFrom (i + 1) rest)
              = specAccepted now (s.acc ++ [e]) (List.enumFrom (i + 1) rest) := by
            rw [specAccepted]
            simp [hprocP, hre, hd]
          obtain ⟨ih1, ih2, ih3, ih4⟩ := ih (i + 1)
            { acc := s.acc ++ [e], imported := s.imported + 1, skipped := s.skipped,
              errors := s.errors }
          dsimp only at ih1 ih2 ih3 ih4
          rw [hM, hK, hImp, hAcc]
          exact ⟨ih1, by rw [ih2]; omega, ih3, ih4⟩
      | none =>
        have hre : rowExp now (i, l) = none := hr
        have herr : (csvRowToExpense now (jsTrim l) (i + 1)).errors ≠ [] := by
          rcases csvRowToExpense_shape now (jsTrim l) (i + 1) with ⟨h1, _⟩ | ⟨_, h2⟩
          · rw [hr] at h1
            exact absurd h1 (by simp)
          · exact h2
        dsimp only
        have hM : specM now ((i, l) :: List.enumFrom (i + 1) rest)
            = 1 + specM now (List.enumFrom (i + 1) rest) := by
          simp [specM, List.filter_cons, hre, hprocP]
          omega
        have hK : specK now s.acc ((i, l) :: List.enumFrom (i + 1) rest)
            = specK now s.acc (List.enumFrom (i + 1) rest) := by
          rw [specK]
          simp [hprocP, hre]
        have hImp : specImp now s.acc ((i, l) :: List.enumFrom (i + 1) rest)
            = specImp now s.acc (List.enumFrom (i + 1) rest) := by
          rw [specImp]
          simp [hprocP, hre]
        have hAcc : specAccepted now s.acc ((i, l) :: List.enumFrom (i + 1) rest)
            = specAccepted now s.acc (List.enumFrom (i + 1) rest) := by
          rw [specAccepted]
          simp [hprocP, hre]
        obtain ⟨ih1, ih2, ih3, ih4⟩ := ih (i + 1)
          { acc := s.acc, imported := s.imported, skipped := s.skipped + 1,
            errors := s.errors ++ (csvRowToExpense now (jsTrim l) (i + 1)).errors }
        dsimp only at ih1 ih2 ih3 ih4
        rw [hM, hK, hImp, hAcc]
        refine ⟨ih1, ih2, by rw [ih3]; omega, ?_⟩
        simp only [List.length_append] at ih4
        have hpos : 1 ≤ (csvRowToExpense now (jsTrim l) (i + 1)).errors.length :=
          Nat.one_le_iff_ne_zero.mpr (fun hz => herr (List.length_eq_zero.mp hz))
        omega
    · rw [if_neg hp]
      have hproc : isProcLine l = false := by
        cases hq : isProcLine l with
        | false => rfl
        | true => exact absurd ((isProcLine_iff l).mp hq) hp
      have hprocP : isProcLine ((i, l) : Nat × Str).2 = false := hproc
      have hM : specM now ((i, l) :: List.enumFrom (i + 1) rest)
          = specM now (List.enumFrom (i + 1) rest) := by
        simp [specM, List.filter_cons, hprocP]
      have hK : specK now s.acc ((i, l) :: List.enumFrom (i + 1) rest)
          = specK now s.acc (List.enumFrom (i + 1) rest) := by
        rw [specK]
        simp [hprocP]
      have hImp : specImp now s.acc ((i, l) :: List.enumFrom (i + 1) rest)
          = specImp now s.acc (List.enumFrom (i + 1) rest) := by
        rw [specImp]
        simp [hprocP]
      have hAcc : specAccepted now s.acc ((i, l) :: List.enumFrom (i + 1) rest)
          = specAccepted now s.acc (List.enumFrom (i + 1) rest) := by
        rw [specAccepted]
        simp [hprocP]
      rw [hM, hK, hImp, hAcc]
      exact ih (i + 1) s


end CSVDataManager

namespace CSVDataManager

/-- Every processed row is counted exactly once: invalid, duplicate, or
accepted. -/
theorem spec_decompose (now : Nat) (ps : List (Nat × Str)) :
    ∀ acc, specN ps = specM now ps + specK now acc ps + specImp now acc ps := by
  induction ps with
  | nil => intro acc; rfl
  | cons p rest ih =>
    intro acc
    by_cases hp : isProcLine p.2
    · cases hr : rowExp now p with
      | some e =>
        have hN : specN (p :: rest) = 1 + specN rest := by
          simp [specN, List.filter_cons, hp]
          omega
        have hM : specM now (p :: rest) = specM now rest := by
          simp [specM, List.filter_cons, hr]
        by_cases hd : isDuplicate acc e
        · rw [hN, hM, specK, specImp]
          simp only [hp, hr, hd, ite_true, if_true]
          try simp only [if_pos trivial]
          rw [ih acc]
          omega
        · rw [hN, hM, specK, specImp]
          simp only [hp, hr, hd, if_true, ite_true, ite_false, Bool.false_eq_true,
            if_false, eq_self_iff_true]
          try simp only [if_pos trivial]
          rw [ih (acc ++ [e])]
          omega
      | none =>
        have hN : specN (p :: rest) = 1 + specN rest := by
          simp [specN, List.filter_cons, hp]
          omega
        have hM : specM now (p :: rest) = 1 + specM now rest := by
          simp [specM, List.filter_cons, hp, hr]
          omega
        rw [hN, hM, specK, specImp]
        simp only [hp, hr]
        try simp only [if_pos trivial]
        rw [ih acc]
        omega
    · have hpF : isProcLine p.2 = false := by
        cases hq : isProcLine p.2 with
        | false => rfl
        | true => exact absurd hq hp
      have hN : specN (p :: rest) = specN rest := by
        simp [specN, List.filter_cons, hpF]
      have hM : specM now (p :: rest) = specM now rest := by
        simp [specM, List.filter_cons, hpF]
      rw [hN, hM, specK, specImp]
      simp only [hpF, Bool.false_eq_true, ite_false, if_false]
      exact ih acc

/-- The accepted list grows by exactly the accepted count. -/
theorem specAccepted_len (now : Nat) (ps : List (Nat × Str)) :
    ∀ acc, (specAccepted now acc ps).length = acc.length + specImp now acc ps := by
  induction ps with
  | nil => intro acc; simp [specAccepted, specImp]
  | cons p rest ih =>
    intro acc
    by_cases hp : isProcLine p.2
    · cases hr : rowExp now p with
      | some e =>
        by_cases hd : isDuplicate acc e
        · rw [specAccepted, specImp]
          simp only [hp, hr, hd, ite_true]
          try simp only [if_pos trivial]
          exact ih acc
        · rw [specAccepted, specImp]
          simp only [hp, hr, hd, ite_false, Bool.false_eq_true]
          try simp only [if_pos trivial]
          rw [ih (acc ++ [e])]
          simp
          omega
      | none =>
        rw [specAccepted, specImp]
        simp only [hp, hr]
        try simp only [if_pos trivial]
        exact ih acc
    · have hpF : isProcLine p.2 = false := by
        cases hq : isProcLine p.2 with
        | false => rfl
        | true => exact absurd hq hp
      rw [specAccepted, specImp]
      simp only [hpF, Bool.false_eq_true, ite_false]
      exact ih acc

end CSVDataManager

/-- C3: for an import input recognized as CSV (right extension, size and
non-empty checks pass, header found), let `N`, `M`, `K` be the processed
row count, the invalid row count and the duplicate count (a row is a
duplicate exactly when its id, or all of amount/category/description/
date, match an already-accepted row).  The import succeeds exactly when
some row is accepted (`M + K < N`), and then reports
`importedCount = N - M - K`, `skippedCount = M + K` and at least `M + K`
errors.  The operation is a total function — partial failure never
raises. -/
theorem C3_partial_import (now : Nat) (username : Str)
    (file : CSVDataManager.CsvFile) (st : Storage)
    (hname : jsEndsWith (jsToLower file.name) (str ".csv") = true)
    (hsize : ¬ (file.content.length > 5 * 1024 * 1024))
    (hne : jsTrim file.content ≠ [])
    (hstart : CSVDataManager.findImportStart (splitNl file.content) ≠ 0)
    (hu : username ≠ []) :
    ((CSVDataManager.importUserData now username file st).1.success = true ↔
      0 < CSVDataManager.specN
          (List.enumFrom (CSVDataManager.findImportStart (splitNl file.content))
            ((splitNl file.content).drop
              (CSVDataManager.findImportStart (splitNl file.content))))
        - CSVDataManager.specM now
          (List.enumFrom (CSVDataManager.findImportStart (splitNl file.content))
            ((splitNl file.content).drop
              (CSVDataManager.findImportStart (splitNl file.content))))
        - CSVDataManager.specK now []
          (List.enumFrom (CSVDataManager.findImportStart (splitNl file.content))
            ((splitNl file.content).drop
              (CSVDataManager.findImportStart (splitNl file.content))))) ∧
    ((CSVDataManager.importUserData now username file st).1.success = true →
      (CSVDataManager.importUserData now username file st).1.importedCount
        = CSVDataManager.specN
            (List.enumFrom (CSVDataManager.findImportStart (splitNl file.content))
              ((splitNl file.content).drop
                (CSVDataManager.findImportStart (splitNl file.content))))
          - CSVDataManager.specM now
            (List.enumFrom (CSVDataManager.findImportStart (splitNl file.content))
              ((splitNl file.content).drop
                (CSVDataManager.findImportStart (splitNl file.content))))
          - CSVDataManager.specK now []
            (List.enumFrom (CSVDataManager.findImportStart (splitNl file.content))
              ((splitNl file.content).drop
                (CSVDataManager.findImportStart (splitNl file.content)))) ∧
      (CSVDataManager.importUserData now username file st).1.skippedCount
        = CSVDataManager.specM now
            (List.enumFrom (CSVDataManager.findImportStart (splitNl file.content))
              ((splitNl file.content).drop
                (CSVDataManager.findImportStart (splitNl file.content))))
          + CSVDataManager.specK now []
            (List.enumFrom (CSVDataManager.findImportStart (splitNl file.content))
              ((splitNl file.content).drop
                (CSVDataManager.findImportStart (splitNl file.content)))) ∧
      CSVDataManager.specM now
          (List.enumFrom (CSVDataManager.findImportStart (splitNl file.content))
            ((splitNl file.content).drop
              (CSVDataManager.findImportStart (splitNl file.content))))
        + CSVDataManager.specK now []
          (List.enumFrom (CSVDataManager.findImportStart (splitNl file.content))
            ((splitNl file.content).drop
              (CSVDataManager.findImportStart (splitNl file.content))))
        ≤ (CSVDataManager.importUserData now username file st).1.errors.length) := by
  rw [CSVDataManager.importUserData]
  dsimp only
  rw [if_neg (by simp [hname]), if_neg hsize, if_neg (fun h => hne h), if_neg hstart]
  obtain ⟨h1, h2, h3, h4⟩ := CSVDataManager.importLoop_spec now
    ((splitNl file.content).drop (CSVDataManager.findImportStart (splitNl file.content)))
    (CSVDataManager.findImportStart (splitNl file.content))
    { acc := [], imported := 0, skipped := 0, errors := [] }
  dsimp only at h1 h2 h3 h4
  have hdec := CSVDataManager.spec_decompose now
    (List.enumFrom (CSVDataManager.findImportStart (splitNl file.content))
      ((splitNl file.content).drop
        (CSVDataManager.findImportStart (splitNl file.content)))) []
  have hlen := CSVDataManager.specAccepted_len now
    (List.enumFrom (CSVDataManager.findImportStart (splitNl file.content))
      ((splitNl file.content).drop
        (CSVDataManager.findImportStart (splitNl file.content)))) []
  by_cases hacc : (CSVDataManager.importLoop now
      ((splitNl file.content).drop (CSVDataManager.findImportStart (splitNl file.content)))
      (CSVDataManager.findImportStart (splitNl file.content))
      { acc := [], imported := 0, skipped := 0, errors := [] }).acc = []
  · rw [if_pos hacc]
    have hImp0 : CSVDataManager.specImp now []
        (List.enumFrom (CSVDataManager.findImportStart (splitNl file.content))
          ((splitNl file.content).drop
            (CSVDataManager.findImportStart (splitNl file.content)))) = 0 := by
      rw [← h1, hacc] at hlen
      simpa using hlen.symm
    constructor
    · simp only []
      constructor
      · intro hfalse
        exact absurd hfalse (by simp)
      · intro hpos
        omega
    · intro hfalse
      exact absurd hfalse (by simp)
  · rw [if_neg hacc]
    obtain ⟨st', hsave⟩ := @CSVDataManager.saveExpenses_some now _ hu _ st
    rw [hsave]
    have hImpPos : 0 < CSVDataManager.specImp now []
        (List.enumFrom (CSVDataManager.findImportStart (splitNl file.content))
          ((splitNl file.content).drop
            (CSVDataManager.findImportStart (splitNl file.content)))) := by
      rw [← h1] at hlen
      have hlp : 0 < (CSVDataManager.importLoop now
          ((splitNl file.content).drop
            (CSVDataManager.findImportStart (splitNl file.content)))
          (CSVDataManager.findImportStart (splitNl file.content))
          { acc := [], imported := 0, skipped := 0, errors := [] }).acc.length :=
        List.length_pos.mpr hacc
      rw [hlen] at hlp
      simpa using hlp
    refine ⟨⟨fun _ => by omega, fun _ => rfl⟩, fun _ => ⟨?_, ?_, ?_⟩⟩
    · show (CSVDataManager.importLoop now _ _ _).imported = _
      omega
    · show (CSVDataManager.importLoop now _ _ _).skipped = _
      omega
    · show _ ≤ (CSVDataManager.importLoop now _ _ _).errors.length
      omega

/-- A concrete import file: a header line followed by three data rows —
one valid, one failing validation (unknown category), and one duplicate
(same id as the accepted row). -/
def c3file : CSVDataManager.CsvFile :=
  { name := str "import.csv"
    content := str "id,amount,category,description,date\na1,100,Food & Groceries,Lunch,2024-01-15\na2,200,Nope,Snack,2024-01-15\na1,300,Food & Groceries,Dinner,2024-01-15" }

set_option maxRecDepth 4000 in
/-- C3 witness: on `c3file` (`N = 3` rows, `M = 1` invalid, `K = 1`
duplicate) the import succeeds with `importedCount = 1`,
`skippedCount = 2` and at least two recorded errors. -/
theorem C3_witness :
    (CSVDataManager.importUserData c1now (str "demo") c3file []).1.success = true ∧
    (CSVDataManager.importUserData c1now (str "demo") c3file []).1.importedCount = 1 ∧
    (CSVDataManager.importUserData c1now (str "demo") c3file []).1.skippedCount = 2 ∧
    2 ≤ (CSVDataManager.importUserData c1now (str "demo") c3file []).1.errors.length := by
  obtain ⟨hiff, himp⟩ := C3_partial_import c1now (str "demo") c3file []
    (by decide) (by decide) (by decide) (by decide) (by decide)
  have hs := hiff.mpr (by decide)
  obtain ⟨h1, h2, h3⟩ := himp hs
  refine ⟨hs, ?_, ?_, le_trans (by decide) h3⟩
  · rw [h1]
    decide
  · rw [h2]
    decide
